import Mathlib

/-!
Verification of the telegram-korean-search core against its specification.

The Rust sources under `src-tauri/src` are shallowly embedded: pure functions
become Lean functions, the SQLite store becomes an explicit `Store` value with
list-based tables, and the SQL queries become filter/sort/take pipelines.
External engines (the SQLite FTS5 MATCH operator and the SQL LIKE operator)
are passed in as boolean oracles, since their semantics live outside this
repository; everything the repository itself computes is modelled concretely.
-/

namespace TgSearch

/-- Unicode code points with the White_Space property, as used by Rust's
`char::is_whitespace` (the source filters on `c.is_whitespace()`). -/
def isRustWhitespace (c : Char) : Bool :=
  (0x09 ≤ c.toNat && c.toNat ≤ 0x0D) || c.toNat == 0x20 || c.toNat == 0x85 ||
  c.toNat == 0xA0 || c.toNat == 0x1680 ||
  (0x2000 ≤ c.toNat && c.toNat ≤ 0x200A) || c.toNat == 0x2028 ||
  c.toNat == 0x2029 || c.toNat == 0x202F || c.toNat == 0x205F ||
  c.toNat == 0x3000

/-- Embedding of `store::message::strip_whitespace`:
`text.chars().filter(|c| !c.is_whitespace()).collect()`. -/
def strip_whitespace (s : String) : String :=
  ⟨s.data.filter (fun c => !isRustWhitespace c)⟩

/-- Embedding of Rust `str::trim` (removes leading and trailing Unicode
whitespace), used by the search engine on the incoming query. -/
def rustTrim (s : String) : String :=
  ⟨((s.data.dropWhile isRustWhitespace).reverse.dropWhile isRustWhitespace).reverse⟩

/-- Helper for `split_whitespace`: accumulates the current word (reversed) and
emits maximal runs of non-whitespace characters. -/
def splitWsChars : List Char → List Char → List (List Char)
  | acc, [] => match acc with
    | [] => []
    | _ => [acc.reverse]
  | acc, c :: cs =>
    if isRustWhitespace c then
      match acc with
      | [] => splitWsChars [] cs
      | _ => acc.reverse :: splitWsChars [] cs
    else
      splitWsChars (c :: acc) cs

/-- Embedding of Rust `str::split_whitespace`: the maximal runs of
non-whitespace characters, in order, with no empty pieces. -/
def split_whitespace (s : String) : List String :=
  (splitWsChars [] s.data).map (fun l => ⟨l⟩)

/-- Embedding of `collector::link::build_link`.  DMs with a username link to
the user page, DMs without to a `tg://user` URI; other chats link to the
message when public, and to a `tg://privatepost` URI otherwise, where the
channel id is `chat_id.unsigned_abs().saturating_sub(1_000_000_000_000)`
(Nat subtraction saturates exactly like Rust's `saturating_sub`). -/
def build_link (chat_id : Int) (username : Option String) (message_id : Int)
    (chat_type : String) : String :=
  if chat_type = "dm" then
    match username with
    | some uname =>
      if uname.isEmpty then "tg://user?id=" ++ toString chat_id
      else "https://t.me/" ++ uname
    | none => "tg://user?id=" ++ toString chat_id
  else
    match username with
    | some uname =>
      if uname.isEmpty then
        "tg://privatepost?channel=" ++ toString (chat_id.natAbs - 1000000000000) ++
          "&post=" ++ toString message_id
      else
        "https://t.me/" ++ uname ++ "/" ++ toString message_id
    | none =>
      "tg://privatepost?channel=" ++ toString (chat_id.natAbs - 1000000000000) ++
        "&post=" ++ toString message_id

/-- Embedding of `store::chat::ChatRow`. -/
structure ChatRow where
  chat_id : Int
  title : String
  chat_type : String
  username : Option String
  access_hash : Option Int
  is_excluded : Bool
deriving DecidableEq

/-- Embedding of `store::message::MessageRow`. -/
structure MessageRow where
  message_id : Int
  chat_id : Int
  timestamp : Int
  text_plain : String
  text_stripped : String
  link : Option String
deriving DecidableEq

/-- Embedding of the SQLite database state: the `chats` table, the `messages`
table (rows in rowid order), and the `messages_fts` virtual table, recorded
as the indexed `text_plain` column of each FTS row in rowid order. -/
structure Store where
  chats : List ChatRow
  messages : List MessageRow
  fts : List String
deriving DecidableEq

/-- Embedding of `store::chat::upsert_chat`: `INSERT ... ON CONFLICT(chat_id)
DO UPDATE SET title, chat_type, username, access_hash`.  On conflict the
stored `is_excluded` column is not in the update list and is kept. -/
def upsert_chat (s : Store) (c : ChatRow) : Store :=
  if s.chats.any (fun x => x.chat_id == c.chat_id) then
    { s with chats := s.chats.map (fun x =>
        if x.chat_id == c.chat_id then
          { x with title := c.title, chat_type := c.chat_type,
                   username := c.username, access_hash := c.access_hash }
        else x) }
  else
    { s with chats := s.chats ++ [c] }

/-- Embedding of `store::chat::get_chat`: `SELECT ... FROM chats WHERE
chat_id = ?` (the primary key makes the row unique). -/
def get_chat (s : Store) (chat_id : Int) : Option ChatRow :=
  s.chats.find? (fun x => x.chat_id == chat_id)

/-- Embedding of `store::chat::set_chat_excluded`:
`UPDATE chats SET is_excluded = ? WHERE chat_id = ?`. -/
def set_chat_excluded (s : Store) (chat_id : Int) (excluded : Bool) : Store :=
  { s with chats := s.chats.map (fun x =>
      if x.chat_id == chat_id then { x with is_excluded := excluded } else x) }

/-- One step of `store::message::insert_messages_batch`: `INSERT OR IGNORE`
keyed on the primary key `(chat_id, message_id)`; when the row is new
(`changes() > 0`) a matching FTS row holding `text_plain` is inserted. -/
def insert_message (s : Store) (m : MessageRow) : Store :=
  if s.messages.any (fun x => x.chat_id == m.chat_id && x.message_id == m.message_id) then
    s
  else
    { s with messages := s.messages ++ [m], fts := s.fts ++ [m.text_plain] }

/-- Embedding of `store::message::insert_messages_batch`: the batch is
processed row by row inside one transaction. -/
def insert_messages_batch (s : Store) (batch : List MessageRow) : Store :=
  batch.foldl insert_message s

/-- C1: the deep-link builder is a pure total function of
(dialog_id, optional handle, message_id, kind): for kind "dm" with a non-empty
handle it returns the user page, for "dm" otherwise a `tg://user` URI; for any
non-DM kind with a non-empty handle it returns the public message link, and
otherwise a `tg://privatepost` URI whose channel is
`max(0, |dialog_id| - 10^12)` by saturating subtraction; an empty-string
handle behaves exactly like an absent handle. -/
theorem claim_C1 :
    (∀ (cid : Int) (u : String) (mid : Int) (kind : String),
        kind = "dm" → u ≠ "" →
        build_link cid (some u) mid kind = "https://t.me/" ++ u)
  ∧ (∀ (cid mid : Int) (kind : String), kind = "dm" →
        build_link cid none mid kind = "tg://user?id=" ++ toString cid)
  ∧ (∀ (cid : Int) (u : String) (mid : Int) (kind : String),
        kind ≠ "dm" → u ≠ "" →
        build_link cid (some u) mid kind = "https://t.me/" ++ u ++ "/" ++ toString mid)
  ∧ (∀ (cid mid : Int) (kind : String), kind ≠ "dm" →
        build_link cid none mid kind =
          "tg://privatepost?channel=" ++ toString (cid.natAbs - 1000000000000) ++
            "&post=" ++ toString mid)
  ∧ (∀ (cid : Int) (u : String) (mid : Int) (kind : String),
        u = "" → build_link cid (some u) mid kind = build_link cid none mid kind)
  ∧ (∀ cid : Int,
        ((cid.natAbs - 1000000000000 : ℕ) : ℤ) = max 0 ((cid.natAbs : ℤ) - 1000000000000))
  ∧ build_link (-1001234567890) (some "mychannel") 42 "supergroup" = "https://t.me/mychannel/42" := by
  refine ⟨?_, ?_, ?_, ?_, ?_, ?_, ?_⟩
  · intro cid u mid kind hk hu
    simp [build_link, hk, String.isEmpty_iff, hu]
  · intro cid mid kind hk
    simp [build_link, hk]
  · intro cid u mid kind hk hu
    simp [build_link, hk, String.isEmpty_iff, hu]
  · intro cid mid kind hk
    simp [build_link, hk]
  · intro cid u mid kind hu
    subst hu
    simp [build_link, String.isEmpty_iff]
  · intro cid
    omega
  · decide

/-- Witness for C1 at concrete inputs, discharging each hypothesis. -/
theorem claim_C1_witness :
    build_link 12345 (some "johndoe") 42 "dm" = "https://t.me/johndoe" ∧
    build_link 12345 none 42 "dm" = "tg://user?id=" ++ toString (12345 : Int) ∧
    build_link (-1001234567890) (some "mychannel") 42 "supergroup" =
      "https://t.me/" ++ "mychannel" ++ "/" ++ toString (42 : Int) ∧
    build_link 12345 none 1 "group" =
      "tg://privatepost?channel=" ++ toString ((12345 : Int).natAbs - 1000000000000) ++
        "&post=" ++ toString (1 : Int) ∧
    build_link (-1001234567890) (some "") 42 "supergroup" =
      build_link (-1001234567890) none 42 "supergroup" :=
  ⟨claim_C1.1 12345 "johndoe" 42 "dm" rfl (by decide),
   claim_C1.2.1 12345 42 "dm" rfl,
   claim_C1.2.2.1 (-1001234567890) "mychannel" 42 "supergroup" (by decide) (by decide),
   claim_C1.2.2.2.1 12345 1 "group" (by decide),
   claim_C1.2.2.2.2.1 (-1001234567890) "" 42 "supergroup" rfl⟩

/-- C5: the whitespace-stripping function removes exactly the Unicode
whitespace code points and preserves all other code points verbatim in order
(it yields a subsequence free of whitespace in which every non-whitespace
code point keeps its multiplicity), it is idempotent, and it maps
"삼성 전자 주가" to "삼성전자주가". -/
theorem claim_C5 :
    (∀ s : String, strip_whitespace (strip_whitespace s) = strip_whitespace s)
  ∧ (∀ s : String, (strip_whitespace s).data.Sublist s.data)
  ∧ (∀ s : String, ∀ c ∈ (strip_whitespace s).data, isRustWhitespace c = false)
  ∧ (∀ (s : String) (c : Char), isRustWhitespace c = false →
        (strip_whitespace s).data.count c = s.data.count c)
  ∧ strip_whitespace "삼성 전자 주가" = "삼성전자주가" := by
  refine ⟨?_, ?_, ?_, ?_, ?_⟩
  · intro s
    show String.mk (List.filter (fun c => !isRustWhitespace c)
        (List.filter (fun c => !isRustWhitespace c) s.data)) =
      String.mk (List.filter (fun c => !isRustWhitespace c) s.data)
    rw [List.filter_filter]
    simp only [Bool.and_self]
  · intro s
    exact List.filter_sublist s.data
  · intro s c hc
    have h := List.of_mem_filter hc
    simpa using h
  · intro s c hc
    show (s.data.filter _).count c = s.data.count c
    rw [List.count_filter]
    simp [hc]
  · decide

/-- Witness for C5: the hypothesis-bearing conjuncts applied at a concrete
string and character. -/
theorem claim_C5_witness :
    (strip_whitespace "a b").data.count 'a' = "a b".data.count 'a' ∧
    isRustWhitespace 'b' = false :=
  ⟨claim_C5.2.2.2.1 "a b" 'a' (by decide),
   claim_C5.2.2.1 "a b" 'b' (by decide)⟩

/-- Helper: `find?` commutes with a map that does not change the predicate. -/
theorem find?_map_comm {α} (f : α → α) (p : α → Bool) (h : ∀ x, p (f x) = p x)
    (l : List α) : (l.map f).find? p = (l.find? p).map f := by
  induction l with
  | nil => rfl
  | cons a t ih =>
    cases hpa : p a
    · simp [List.find?_cons, h a, hpa, ih]
    · simp [List.find?_cons, h a, hpa]

/-- Helper: `find?` skips a first chunk in which nothing matches. -/
theorem find?_append_none {α} (p : α → Bool) (l₁ l₂ : List α)
    (h : l₁.find? p = none) : (l₁ ++ l₂).find? p = l₂.find? p := by
  induction l₁ with
  | nil => rfl
  | cons a t ih =>
    cases hpa : p a
    · simp only [List.find?_cons, hpa] at h
      simpa [List.find?_cons, hpa] using ih h
    · simp [List.find?_cons, hpa] at h

/-- C6 counterexample: upserting a dialog whose id is already stored with the
excluded flag set does not write the new `is_excluded` value, so the
read-back row differs from the row just written in that attribute. -/
theorem claim_C6_counterexample :
    ¬ ((get_chat (upsert_chat
          { chats := [{ chat_id := 1, title := "old", chat_type := "supergroup",
                        username := none, access_hash := none, is_excluded := true }],
            messages := [], fts := [] }
          { chat_id := 1, title := "new", chat_type := "supergroup",
            username := none, access_hash := none, is_excluded := false }) 1).map
        (fun r => (r.title, r.chat_type, r.username, r.access_hash, r.is_excluded)) =
      some ("new", "supergroup", none, none, false)) := by
  decide

/-- C6 amended: upsert-dialog followed by fetch-dialog-by-id returns a row
whose title, kind, handle and access credential equal the values just
written; the excluded flag equals the written value only when no row with
that id existed before, and otherwise keeps the previously stored value. -/
theorem claim_C6 (s : Store) (d : ChatRow) :
    ∃ r, get_chat (upsert_chat s d) d.chat_id = some r ∧
      r.title = d.title ∧ r.chat_type = d.chat_type ∧ r.username = d.username ∧
      r.access_hash = d.access_hash ∧
      r.is_excluded = (match get_chat s d.chat_id with
        | some old => old.is_excluded
        | none => d.is_excluded) := by
  by_cases hany : s.chats.any (fun x => x.chat_id == d.chat_id) = true
  · obtain ⟨x₀, hmem, hx₀⟩ := List.any_eq_true.mp hany
    have hsome : (s.chats.find? (fun x => x.chat_id == d.chat_id)).isSome :=
      List.find?_isSome.mpr ⟨x₀, hmem, hx₀⟩
    obtain ⟨y, hy⟩ := Option.isSome_iff_exists.mp hsome
    have hpy : (y.chat_id == d.chat_id) = true := by
      have h := List.find?_some hy
      simpa using h
    have hpres : ∀ x : ChatRow,
        (((if x.chat_id == d.chat_id then
            { x with title := d.title, chat_type := d.chat_type,
                     username := d.username, access_hash := d.access_hash }
          else x) : ChatRow).chat_id == d.chat_id) = (x.chat_id == d.chat_id) := by
      intro x
      by_cases hx : (x.chat_id == d.chat_id) = true <;> simp [hx]
    have hpy' : y.chat_id = d.chat_id := by simpa using hpy
    refine ⟨({ y with title := d.title, chat_type := d.chat_type, username := d.username, access_hash := d.access_hash } : ChatRow), ?_, rfl, rfl, rfl, rfl, ?_⟩
    · have hch : (upsert_chat s d).chats = s.chats.map (fun x =>
          if x.chat_id == d.chat_id then
            { x with title := d.title, chat_type := d.chat_type,
                     username := d.username, access_hash := d.access_hash }
          else x) := by
        unfold upsert_chat
        rw [if_pos hany]
      show (upsert_chat s d).chats.find? (fun x => x.chat_id == d.chat_id) = _
      rw [hch, find?_map_comm _ _ hpres, hy]
      simp [hpy']
    · rw [show get_chat s d.chat_id = some y from hy]
  · have hnone : s.chats.find? (fun x => x.chat_id == d.chat_id) = none := by
      rw [List.find?_eq_none]
      intro x hx
      intro hpx
      exact hany (List.any_eq_true.mpr ⟨x, hx, hpx⟩)
    refine ⟨d, ?_, rfl, rfl, rfl, rfl, ?_⟩
    · show (upsert_chat s d).chats.find? _ = _
      have : (upsert_chat s d).chats = s.chats ++ [d] := by
        unfold upsert_chat
        rw [if_neg (by simp [hany])]
      rw [this, find?_append_none _ _ _ hnone]
      simp [List.find?_cons]
    · rw [show get_chat s d.chat_id = none from hnone]

/-- C10: upserting a dialog whose id already exists leaves the stored
excluded flag unchanged: after `set_chat_excluded id true` followed by any
`upsert_chat` for the same id, `get_chat id` still reports the dialog as
excluded, provided a row for that id was stored. -/
theorem claim_C10 (s : Store) (d : ChatRow) (id : Int) (hid : d.chat_id = id)
    (hex : (get_chat s id).isSome = true) :
    (get_chat (upsert_chat (set_chat_excluded s id true) d) id).map
      (fun r => r.is_excluded) = some true := by
  subst hid
  obtain ⟨y, hy⟩ := Option.isSome_iff_exists.mp hex
  have hpy : (y.chat_id == d.chat_id) = true := by
    have h := List.find?_some (show List.find? (fun x => x.chat_id == d.chat_id)
      s.chats = some y from hy)
    simpa using h
  -- the excluded update keeps the search predicate invariant
  have hpres₁ : ∀ x : ChatRow,
      (((if x.chat_id == d.chat_id then { x with is_excluded := true } else x) :
        ChatRow).chat_id == d.chat_id) = (x.chat_id == d.chat_id) := by
    intro x
    by_cases hx : (x.chat_id == d.chat_id) = true <;> simp [hx]
  have hfind₁ : (set_chat_excluded s d.chat_id true).chats.find?
      (fun x => x.chat_id == d.chat_id) = some { y with is_excluded := true } := by
    show ((s.chats.map _).find? _) = _
    rw [find?_map_comm _ _ hpres₁,
      show List.find? (fun x => x.chat_id == d.chat_id) s.chats = some y from hy]
    have hpy' : y.chat_id = d.chat_id := by simpa using hpy
    simp [hpy']
  have hany : (set_chat_excluded s d.chat_id true).chats.any
      (fun x => x.chat_id == d.chat_id) = true := by
    refine List.any_eq_true.mpr ⟨{ y with is_excluded := true },
      List.mem_of_find?_eq_some hfind₁, by simpa using hpy⟩
  have hpres₂ : ∀ x : ChatRow,
      (((if x.chat_id == d.chat_id then
          { x with title := d.title, chat_type := d.chat_type,
                   username := d.username, access_hash := d.access_hash }
        else x) : ChatRow).chat_id == d.chat_id) = (x.chat_id == d.chat_id) := by
    intro x
    by_cases hx : (x.chat_id == d.chat_id) = true <;> simp [hx]
  have hch : (upsert_chat (set_chat_excluded s d.chat_id true) d).chats =
      (set_chat_excluded s d.chat_id true).chats.map (fun x =>
        if x.chat_id == d.chat_id then
          { x with title := d.title, chat_type := d.chat_type,
                   username := d.username, access_hash := d.access_hash }
        else x) := by
    unfold upsert_chat
    rw [if_pos hany]
  show Option.map _ ((upsert_chat (set_chat_excluded s d.chat_id true) d).chats.find?
    (fun x => x.chat_id == d.chat_id)) = _
  rw [hch, find?_map_comm _ _ hpres₂, hfind₁]
  have hpy' : y.chat_id = d.chat_id := by simpa using hpy
  simp [hpy']

/-- Witness for C10 at a concrete store and row. -/
theorem claim_C10_witness :
    (get_chat (upsert_chat (set_chat_excluded
        { chats := [{ chat_id := 5, title := "t", chat_type := "group",
                      username := none, access_hash := none, is_excluded := false }],
          messages := [], fts := [] } 5 true)
        { chat_id := 5, title := "t2", chat_type := "group",
          username := some "u", access_hash := some 9, is_excluded := false }) 5).map
      (fun r => r.is_excluded) = some true :=
  claim_C10 _ _ 5 rfl (by decide)

/-- Consistency of the FTS view with the base message table: the indexed
texts are exactly the `text_plain` column of the base rows, row for row. -/
def ftsConsistent (s : Store) : Prop :=
  s.fts = s.messages.map (fun m => m.text_plain)

/-- Helper: one insert preserves FTS consistency. -/
theorem insert_message_consistent (s : Store) (m : MessageRow)
    (h : ftsConsistent s) : ftsConsistent (insert_message s m) := by
  unfold insert_message
  split
  · exact h
  · show s.fts ++ [m.text_plain] = (s.messages ++ [m]).map _
    rw [List.map_append, h]
    rfl

/-- Helper: presence of a primary key is preserved by an insert. -/
theorem insert_message_hasKey_mono (s : Store) (m m' : MessageRow)
    (h : s.messages.any (fun x => x.chat_id == m'.chat_id && x.message_id == m'.message_id) = true) :
    (insert_message s m).messages.any
      (fun x => x.chat_id == m'.chat_id && x.message_id == m'.message_id) = true := by
  unfold insert_message
  split
  · exact h
  · show (s.messages ++ [m]).any _ = true
    rw [List.any_append, h]
    rfl

/-- Helper: after inserting a row, its primary key is present. -/
theorem insert_message_hasKey_self (s : Store) (m : MessageRow) :
    (insert_message s m).messages.any
      (fun x => x.chat_id == m.chat_id && x.message_id == m.message_id) = true := by
  unfold insert_message
  split
  · assumption
  · show (s.messages ++ [m]).any _ = true
    rw [List.any_append]
    simp

/-- Helper: presence of a primary key is preserved by a whole batch. -/
theorem insert_batch_hasKey_mono (b : List MessageRow) (s : Store) (m' : MessageRow)
    (h : s.messages.any (fun x => x.chat_id == m'.chat_id && x.message_id == m'.message_id) = true) :
    (insert_messages_batch s b).messages.any
      (fun x => x.chat_id == m'.chat_id && x.message_id == m'.message_id) = true := by
  induction b generalizing s with
  | nil => exact h
  | cons a t ih => exact ih _ (insert_message_hasKey_mono s a m' h)

/-- Helper: every key of the batch is present after the batch insert. -/
theorem insert_batch_hasKey (b : List MessageRow) (s : Store) :
    ∀ m ∈ b, (insert_messages_batch s b).messages.any
      (fun x => x.chat_id == m.chat_id && x.message_id == m.message_id) = true := by
  induction b generalizing s with
  | nil => intro m hm; cases hm
  | cons a t ih =>
    intro m hm
    rcases List.mem_cons.mp hm with rfl | hm'
    · exact insert_batch_hasKey_mono t (insert_message s m) m
        (insert_message_hasKey_self s m)
    · exact ih (insert_message s a) m hm'

/-- Helper: inserting a batch whose keys are all present changes nothing. -/
theorem insert_batch_allKeys_id (b : List MessageRow) (s : Store)
    (h : ∀ m ∈ b, s.messages.any
      (fun x => x.chat_id == m.chat_id && x.message_id == m.message_id) = true) :
    insert_messages_batch s b = s := by
  induction b generalizing s with
  | nil => rfl
  | cons a t ih =>
    have hstep : insert_message s a = s := by
      unfold insert_message
      rw [if_pos (h a (List.mem_cons_self a t))]
    show insert_messages_batch (insert_message s a) t = s
    rw [hstep]
    exact ih s (fun m hm => h m (List.mem_cons_of_mem a hm))

/-- C7: after every batch insert — batches repeating already-stored keys or
containing internal duplicates included — the FTS view stays consistent with
the base table: the indexed texts are exactly the `text_plain` column of the
base rows, hence the row counts agree; and re-inserting the same batch is a
no-op, so the message count is unchanged. -/
theorem claim_C7 :
    (∀ (s : Store) (b : List MessageRow), ftsConsistent s →
        ftsConsistent (insert_messages_batch s b))
  ∧ (∀ (s : Store) (b : List MessageRow), ftsConsistent s →
        (insert_messages_batch s b).fts.length = (insert_messages_batch s b).messages.length)
  ∧ (∀ (s : Store) (b : List MessageRow),
        insert_messages_batch (insert_messages_batch s b) b = insert_messages_batch s b)
  ∧ (∀ (s : Store) (b : List MessageRow),
        (insert_messages_batch (insert_messages_batch s b) b).messages.length =
          (insert_messages_batch s b).messages.length) := by
  have hcons : ∀ (s : Store) (b : List MessageRow), ftsConsistent s →
      ftsConsistent (insert_messages_batch s b) := by
    intro s b
    induction b generalizing s with
    | nil => exact fun h => h
    | cons a t ih =>
      intro h
      exact ih _ (insert_message_consistent s a h)
  have hidem : ∀ (s : Store) (b : List MessageRow),
      insert_messages_batch (insert_messages_batch s b) b = insert_messages_batch s b :=
    fun s b => insert_batch_allKeys_id b _ (insert_batch_hasKey b s)
  refine ⟨hcons, ?_, hidem, ?_⟩
  · intro s b h
    rw [hcons s b h]
    exact List.length_map _ _
  · intro s b
    rw [hidem s b]

/-- Witness for C7: the hypothesis-bearing conjuncts at a concrete store and
batch (the batch also contains an internal duplicate). -/
theorem claim_C7_witness :
    ftsConsistent (insert_messages_batch { chats := [], messages := [], fts := [] }
      [{ message_id := 1, chat_id := 1, timestamp := 10, text_plain := "hi",
         text_stripped := "hi", link := none },
       { message_id := 1, chat_id := 1, timestamp := 10, text_plain := "hi",
         text_stripped := "hi", link := none }]) ∧
    (insert_messages_batch { chats := [], messages := [], fts := [] }
      [{ message_id := 1, chat_id := 1, timestamp := 10, text_plain := "hi",
         text_stripped := "hi", link := none },
       { message_id := 1, chat_id := 1, timestamp := 10, text_plain := "hi",
         text_stripped := "hi", link := none }]).fts.length =
    (insert_messages_batch { chats := [], messages := [], fts := [] }
      [{ message_id := 1, chat_id := 1, timestamp := 10, text_plain := "hi",
         text_stripped := "hi", link := none },
       { message_id := 1, chat_id := 1, timestamp := 10, text_plain := "hi",
         text_stripped := "hi", link := none }]).messages.length :=
  ⟨claim_C7.1 _ _ (by simp [ftsConsistent]), claim_C7.2.1 _ _ (by simp [ftsConsistent])⟩

/-- Embedding of `collector::CollectorError`, including the flood-wait
variant carrying the server-requested cool-down seconds that
`collector::messages` constructs and matches on. -/
inductive CollectorError where
  | floodWait (seconds : Nat)
  | io (msg : String)
  | session (msg : String)
  | auth (msg : String)
  | api (msg : String)
  | invalidPath
deriving DecidableEq

/-- Embedding of `collector::messages::MAX_FLOOD_RETRIES`. -/
def MAX_FLOOD_RETRIES : Nat := 2

/-- Observable outcome of the retry wrapper: the returned result, the log of
sleeps performed (in seconds, in order), and the number of fetch attempts. -/
structure RetryOutcome where
  result : Except CollectorError (List MessageRow)
  sleeps : List Nat
  attempts : Nat

/-- Embedding of the loop of `collector::messages::fetch_messages_with_retry`
from a given attempt index.  The underlying `fetch_messages` network call is
abstracted as a function from the attempt number to its result (a scripted
client); each flood-wait sleep is recorded instead of performed. -/
def retryFrom (fetch : Nat → Except CollectorError (List MessageRow)) :
    Nat → List Nat → RetryOutcome
  | attempt, sleeps =>
    match fetch attempt with
    | .ok rows => ⟨.ok rows, sleeps, attempt + 1⟩
    | .error (.floodWait secs) =>
      if h : attempt < MAX_FLOOD_RETRIES then
        retryFrom fetch (attempt + 1) (sleeps ++ [secs])
      else
        ⟨.error (.floodWait secs), sleeps, attempt + 1⟩
    | .error e => ⟨.error e, sleeps, attempt + 1⟩
  termination_by attempt _ => MAX_FLOOD_RETRIES - attempt
  decreasing_by omega

/-- Embedding of `collector::messages::fetch_messages_with_retry`: the loop
`for attempt in 0..=MAX_FLOOD_RETRIES`. -/
def fetch_messages_with_retry
    (fetch : Nat → Except CollectorError (List MessageRow)) : RetryOutcome :=
  retryFrom fetch 0 []

/-- Helper: a successful fetch stops the retry loop at once. -/
theorem retryFrom_ok (fetch : Nat → Except CollectorError (List MessageRow))
    (a : Nat) (s : List Nat) (v : List MessageRow) (h : fetch a = .ok v) :
    retryFrom fetch a s = ⟨.ok v, s, a + 1⟩ := by
  rw [retryFrom, h]

/-- Helper: with retries left, a flood-wait sleeps and recurses. -/
theorem retryFrom_flood_retry (fetch : Nat → Except CollectorError (List MessageRow))
    (a : Nat) (s : List Nat) (n : Nat) (h : fetch a = .error (.floodWait n))
    (ha : a < MAX_FLOOD_RETRIES) :
    retryFrom fetch a s = retryFrom fetch (a + 1) (s ++ [n]) := by
  rw [retryFrom, h]
  show (if _ : a < MAX_FLOOD_RETRIES then retryFrom fetch (a + 1) (s ++ [n]) else _) = _
  exact dif_pos ha

/-- Helper: with retries exhausted, a flood-wait is surfaced. -/
theorem retryFrom_flood_stop (fetch : Nat → Except CollectorError (List MessageRow))
    (a : Nat) (s : List Nat) (n : Nat) (h : fetch a = .error (.floodWait n))
    (ha : ¬ a < MAX_FLOOD_RETRIES) :
    retryFrom fetch a s = ⟨.error (.floodWait n), s, a + 1⟩ := by
  rw [retryFrom, h]
  show (if _ : a < MAX_FLOOD_RETRIES then retryFrom fetch (a + 1) (s ++ [n]) else _) = _
  exact dif_neg ha

/-- Helper: a non-flood-wait error is surfaced at once. -/
theorem retryFrom_other (fetch : Nat → Except CollectorError (List MessageRow))
    (a : Nat) (s : List Nat) (e : CollectorError) (h : fetch a = .error e)
    (he : ∀ n, e ≠ CollectorError.floodWait n) :
    retryFrom fetch a s = ⟨.error e, s, a + 1⟩ := by
  rw [retryFrom, h]
  rcases e with n | m | m | m | m | _
  · exact absurd rfl (he n)
  all_goals rfl

/-- C9: the retry wrapper makes at most 3 attempts; a first success is
returned unchanged with no sleep; a non-flood-wait error is returned
immediately with no retry and no sleep; flood-wait once then success yields
the success after one recorded sleep of the requested seconds; flood-wait on
every attempt fails with the final flood-wait after exactly 3 attempts and
2 sleeps. -/
theorem claim_C9 :
    (∀ fetch, (fetch_messages_with_retry fetch).attempts ≤ 3)
  ∧ (∀ fetch v, fetch 0 = .ok v →
        fetch_messages_with_retry fetch = ⟨.ok v, [], 1⟩)
  ∧ (∀ fetch e, (∀ n, e ≠ CollectorError.floodWait n) → fetch 0 = .error e →
        fetch_messages_with_retry fetch = ⟨.error e, [], 1⟩)
  ∧ (∀ fetch n v, fetch 0 = .error (.floodWait n) → fetch 1 = .ok v →
        fetch_messages_with_retry fetch = ⟨.ok v, [n], 2⟩)
  ∧ (∀ fetch (ns : Nat → Nat), (∀ i, i ≤ 2 → fetch i = .error (.floodWait (ns i))) →
        fetch_messages_with_retry fetch =
          ⟨.error (.floodWait (ns 2)), [ns 0, ns 1], 3⟩) := by
  have hstep : ∀ fetch (a : Nat) (s : List Nat), (retryFrom fetch a s).attempts ≤
      max (a + 1) (MAX_FLOOD_RETRIES + 1) := by
    intro fetch a s
    by_cases ha : a ≤ MAX_FLOOD_RETRIES
    · -- bounded induction over the remaining retries
      have : ∀ k (a : Nat) (s : List Nat), MAX_FLOOD_RETRIES - a ≤ k →
          (retryFrom fetch a s).attempts ≤ max (a + 1) (MAX_FLOOD_RETRIES + 1) := by
        intro k
        induction k with
        | zero =>
          intro a s hk
          rcases h0 : fetch a with e | v
          · rcases e with n | m | m | m | m | _
            · rw [retryFrom_flood_stop fetch a s n h0 (by omega)]
              simp
            all_goals
              rw [retryFrom_other fetch a s _ h0 (by intro n h; cases h)]
              simp
          · rw [retryFrom_ok fetch a s v h0]
            simp
        | succ k ih =>
          intro a s hk
          rcases h0 : fetch a with e | v
          · rcases e with n | m | m | m | m | _
            · by_cases hlt : a < MAX_FLOOD_RETRIES
              · rw [retryFrom_flood_retry fetch a s n h0 hlt]
                have := ih (a + 1) (s ++ [n]) (by omega)
                omega
              · rw [retryFrom_flood_stop fetch a s n h0 hlt]
                simp
            all_goals
              rw [retryFrom_other fetch a s _ h0 (by intro n h; cases h)]
              simp
          · rw [retryFrom_ok fetch a s v h0]
            simp
      exact this (MAX_FLOOD_RETRIES - a) a s (by omega)
    · rcases h0 : fetch a with e | v
      · rcases e with n | m | m | m | m | _
        · rw [retryFrom_flood_stop fetch a s n h0 (by omega)]
          simp
        all_goals
          rw [retryFrom_other fetch a s _ h0 (by intro n h; cases h)]
          simp
      · rw [retryFrom_ok fetch a s v h0]
        simp
  refine ⟨?_, ?_, ?_, ?_, ?_⟩
  · intro fetch
    have := hstep fetch 0 []
    simpa [fetch_messages_with_retry, MAX_FLOOD_RETRIES] using this
  · intro fetch v h0
    exact retryFrom_ok fetch 0 [] v h0
  · intro fetch e he h0
    exact retryFrom_other fetch 0 [] e h0 he
  · intro fetch n v h0 h1
    unfold fetch_messages_with_retry
    rw [retryFrom_flood_retry fetch 0 [] n h0 (by simp [MAX_FLOOD_RETRIES]),
      retryFrom_ok fetch 1 ([] ++ [n]) v h1]
    simp
  · intro fetch ns h
    unfold fetch_messages_with_retry
    rw [retryFrom_flood_retry fetch 0 [] (ns 0) (h 0 (by omega)) (by simp [MAX_FLOOD_RETRIES]),
      retryFrom_flood_retry fetch 1 ([] ++ [ns 0]) (ns 1) (h 1 (by omega))
        (by simp [MAX_FLOOD_RETRIES]),
      retryFrom_flood_stop fetch 2 ([] ++ [ns 0] ++ [ns 1]) (ns 2) (h 2 (by omega))
        (by simp [MAX_FLOOD_RETRIES])]
    simp

/-- Witness for C9: a scripted client that flood-waits once and then
succeeds, and one that always flood-waits. -/
theorem claim_C9_witness :
    fetch_messages_with_retry
      (fun i => if i = 0 then .error (.floodWait 1) else .ok []) =
      ⟨.ok [], [1], 2⟩ ∧
    fetch_messages_with_retry (fun _ => .error (.floodWait 5)) =
      ⟨.error (.floodWait 5), [5, 5], 3⟩ :=
  ⟨claim_C9.2.2.2.1 _ 1 [] rfl rfl,
   claim_C9.2.2.2.2 _ (fun _ => 5) (fun _ _ => rfl)⟩

/-- UTF-8 encoding of a single scalar value, byte by byte (Rust strings are
UTF-8, and the highlighter works with byte offsets). -/
def charUtf8 (c : Char) : List Nat :=
  let n := c.toNat
  if n < 0x80 then [n]
  else if n < 0x800 then [0xC0 + n / 64, 0x80 + n % 64]
  else if n < 0x10000 then [0xE0 + n / 4096, 0x80 + n / 64 % 64, 0x80 + n % 64]
  else [0xF0 + n / 262144, 0x80 + n / 4096 % 64, 0x80 + n / 64 % 64, 0x80 + n % 64]

/-- UTF-8 byte sequence of a string. -/
def strBytes (s : String) : List Nat :=
  s.data.flatMap charUtf8

/-- Model of Rust `str::to_lowercase`, applied scalar by scalar.  `Char.toLower`
lowercases the ASCII range, which agrees with Rust there; the properties
proved below do not depend on the case mapping of any particular scalar. -/
def lowerStr (s : String) : String :=
  ⟨s.data.map Char.toLower⟩

/-- Embedding of `search::highlight::HighlightRange`: a byte range, start
inclusive, end exclusive. -/
structure HighlightRange where
  start : Nat
  «end» : Nat
deriving DecidableEq

/-- Model of Rust `str::find` on byte sequences: the first byte offset at
which `tok` occurs, if any. -/
def findSub (tok : List Nat) : List Nat → Option Nat
  | [] => if tok.isEmpty then some 0 else none
  | b :: rest =>
    if tok.isPrefixOf (b :: rest) then some 0
    else (findSub tok rest).map (· + 1)

/-- Helper: a prefix is no longer than the list. -/
theorem isPrefixOf_length {tok l : List Nat} (h : tok.isPrefixOf l = true) :
    tok.length ≤ l.length := by
  induction tok generalizing l with
  | nil => simp
  | cons a as ih =>
    cases l with
    | nil => simp [List.isPrefixOf] at h
    | cons b bs =>
      simp only [List.isPrefixOf, Bool.and_eq_true] at h
      have := ih h.2
      simp [List.length_cons]
      omega

/-- Helper: a successful `findSub` is an in-bounds occurrence. -/
theorem findSub_bound {tok l : List Nat} {p : Nat} (hne : tok ≠ [])
    (h : findSub tok l = some p) :
    p + tok.length ≤ l.length ∧ tok.isPrefixOf (l.drop p) = true := by
  induction l generalizing p with
  | nil =>
    rw [findSub] at h
    rw [if_neg (by simpa using hne)] at h
    cases h
  | cons b rest ih =>
    rw [findSub] at h
    by_cases hp : tok.isPrefixOf (b :: rest) = true
    · rw [if_pos hp] at h
      cases h
      exact ⟨by have := isPrefixOf_length hp; omega, hp⟩
    · rw [if_neg hp] at h
      rcases Option.map_eq_some'.mp h with ⟨q, hq, rfl⟩
      obtain ⟨h₁, h₂⟩ := ih hq
      refine ⟨by simp [List.length_cons]; omega, ?_⟩
      simpa using h₂

/-- Scanning loop of `search::highlight::find_highlights` for one token:
repeatedly `find` from `search_from`, record the byte range, and continue
from the end of the match.  The loop is written with explicit fuel so that it
is structurally recursive; `scanToken` below supplies fuel that can never run
out (each found match moves `search_from` strictly forward and stays within
the text, see `scanTokenGo_fuel`). -/
def scanTokenGo (text tok : List Nat) : Nat → Nat → List HighlightRange
  | 0, _ => []
  | fuel + 1, searchFrom =>
    match findSub tok (text.drop searchFrom) with
    | none => []
    | some pos =>
      ⟨searchFrom + pos, searchFrom + pos + tok.length⟩ ::
        scanTokenGo text tok fuel (searchFrom + pos + tok.length)

/-- The scan of one non-empty token starting at `searchFrom`.  The empty-token
guard mirrors the `continue` in the source (an empty pattern would make the
Rust loop spin forever). -/
def scanToken (text tok : List Nat) (searchFrom : Nat) : List HighlightRange :=
  if tok = [] then []
  else scanTokenGo text tok (text.length + 1 - searchFrom) searchFrom

/-- Fuel irrelevance: any fuel at least `text.length + 1 - searchFrom` gives
the same scan, so the fuelled loop agrees with the unbounded Rust loop. -/
theorem scanTokenGo_fuel (text tok : List Nat) (hne : tok ≠ []) :
    ∀ fuel fuel' sf, text.length + 1 - sf ≤ fuel → fuel ≤ fuel' →
      scanTokenGo text tok fuel sf = scanTokenGo text tok fuel' sf := by
  intro fuel
  induction fuel with
  | zero =>
    intro fuel' sf hsf _
    cases fuel' with
    | zero => rfl
    | succ f' =>
      show [] = scanTokenGo text tok (f' + 1) sf
      rw [scanTokenGo]
      match hf : findSub tok (text.drop sf) with
      | none => rfl
      | some pos =>
        exfalso
        have hb := (findSub_bound hne hf).1
        have hlen : (text.drop sf).length = text.length - sf := List.length_drop _ _
        have htok : 0 < tok.length := List.length_pos.mpr hne
        omega
  | succ f ih =>
    intro fuel' sf hsf hle
    cases fuel' with
    | zero => omega
    | succ f' =>
      rw [scanTokenGo, scanTokenGo]
      match hf : findSub tok (text.drop sf) with
      | none => rfl
      | some pos =>
        have hb := (findSub_bound hne hf).1
        have hlen : (text.drop sf).length = text.length - sf := List.length_drop _ _
        have htok : 0 < tok.length := List.length_pos.mpr hne
        show (⟨sf + pos, sf + pos + tok.length⟩ : HighlightRange) ::
            scanTokenGo text tok f (sf + pos + tok.length) =
          (⟨sf + pos, sf + pos + tok.length⟩ : HighlightRange) ::
            scanTokenGo text tok f' (sf + pos + tok.length)
        rw [ih f' (sf + pos + tok.length) (by omega) (by omega)]

/-- The raw occurrence ranges collected across all tokens, in scan order,
before sorting and merging (the `ranges` vector of the source). -/
def rawRanges (text : String) (tokens : List String) : List HighlightRange :=
  tokens.flatMap (fun token =>
    let tokBytes := strBytes (lowerStr token)
    if tokBytes.isEmpty then [] else scanToken (strBytes (lowerStr text)) tokBytes 0)

/-- Sort order used by the source: by start position (`sort_by_key`). -/
def rangeLe (a b : HighlightRange) : Prop :=
  a.start ≤ b.start

instance : DecidableRel rangeLe :=
  fun a b => inferInstanceAs (Decidable (a.start ≤ b.start))

instance : IsTotal HighlightRange rangeLe :=
  ⟨fun a b => Nat.le_total a.start b.start⟩

instance : IsTrans HighlightRange rangeLe :=
  ⟨fun _ _ _ h₁ h₂ => Nat.le_trans h₁ h₂⟩

/-- Embedding of the loop of `search::highlight::merge_overlapping`: `cur` is
the last range pushed into `merged` and is extended while ranges touch it. -/
def mergeLoop (cur : HighlightRange) : List HighlightRange → List HighlightRange
  | [] => [cur]
  | r :: rs =>
    if r.start ≤ cur.«end» then mergeLoop ⟨cur.start, max cur.«end» r.«end»⟩ rs
    else cur :: mergeLoop r rs

/-- Embedding of `search::highlight::merge_overlapping` (lists of length at
most one are returned unchanged, as in the source's early return). -/
def merge_overlapping (ranges : List HighlightRange) : List HighlightRange :=
  match ranges with
  | [] => []
  | r :: rs => mergeLoop r rs

/-- Embedding of `search::highlight::find_highlights`: lowercase text and
tokens, scan every token, sort the ranges by start, merge touching ranges. -/
def find_highlights (text : String) (tokens : List String) : List HighlightRange :=
  merge_overlapping (List.insertionSort rangeLe (rawRanges text tokens))

/-- A byte position is covered by a range list when some range contains it. -/
def covers (ranges : List HighlightRange) (i : Nat) : Prop :=
  ∃ r ∈ ranges, r.start ≤ i ∧ i < r.«end»

instance (ranges : List HighlightRange) (i : Nat) : Decidable (covers ranges i) :=
  inferInstanceAs (Decidable (∃ r ∈ ranges, _ ∧ _))

/-- Helper: coverage over a cons splits into the head range and the rest. -/
theorem covers_cons {r : HighlightRange} {rs : List HighlightRange} {i : Nat} :
    covers (r :: rs) i ↔ (r.start ≤ i ∧ i < r.«end») ∨ covers rs i := by
  constructor
  · rintro ⟨x, hx, hxi⟩
    rcases List.mem_cons.mp hx with rfl | hx'
    · exact Or.inl hxi
    · exact Or.inr ⟨x, hx', hxi⟩
  · rintro (h | ⟨x, hx, hxi⟩)
    · exact ⟨r, List.mem_cons_self r rs, h⟩
    · exact ⟨x, List.mem_cons_of_mem r hx, hxi⟩

/-- Helper: coverage is invariant under permutation. -/
theorem covers_perm {l₁ l₂ : List HighlightRange} (hp : l₁.Perm l₂) (i : Nat) :
    covers l₁ i ↔ covers l₂ i := by
  constructor <;> rintro ⟨x, hx, hxi⟩
  · exact ⟨x, hp.mem_iff.mp hx, hxi⟩
  · exact ⟨x, hp.mem_iff.mpr hx, hxi⟩

/-- Helper: every range produced by the merge loop starts at or after any
common lower bound of the inputs. -/
theorem mergeLoop_start_lb (a : Nat) :
    ∀ (cur : HighlightRange) (l : List HighlightRange), a ≤ cur.start →
      (∀ x ∈ l, a ≤ x.start) → ∀ y ∈ mergeLoop cur l, a ≤ y.start := by
  intro cur l
  induction l generalizing cur with
  | nil =>
    intro h1 _ y hy
    simp only [mergeLoop, List.mem_singleton] at hy
    subst hy
    exact h1
  | cons r rs ih =>
    intro h1 h2 y hy
    simp only [mergeLoop] at hy
    by_cases hc : r.start ≤ cur.«end»
    · rw [if_pos hc] at hy
      exact ih ⟨cur.start, max cur.«end» r.«end»⟩ h1
        (fun x hx => h2 x (List.mem_cons_of_mem r hx)) y hy
    · rw [if_neg hc] at hy
      rcases List.mem_cons.mp hy with rfl | hy'
      · exact h1
      · exact ih r (h2 r (List.mem_cons_self r rs))
          (fun x hx => h2 x (List.mem_cons_of_mem r hx)) y hy'

/-- Helper: the merge loop keeps start at or before end. -/
theorem mergeLoop_wf :
    ∀ (cur : HighlightRange) (l : List HighlightRange), cur.start ≤ cur.«end» →
      (∀ x ∈ l, x.start ≤ x.«end») → ∀ y ∈ mergeLoop cur l, y.start ≤ y.«end» := by
  intro cur l
  induction l generalizing cur with
  | nil =>
    intro h1 _ y hy
    simp only [mergeLoop, List.mem_singleton] at hy
    subst hy
    exact h1
  | cons r rs ih =>
    intro h1 h2 y hy
    simp only [mergeLoop] at hy
    by_cases hc : r.start ≤ cur.«end»
    · rw [if_pos hc] at hy
      refine ih ⟨cur.start, max cur.«end» r.«end»⟩ ?_
        (fun x hx => h2 x (List.mem_cons_of_mem r hx)) y hy
      show cur.start ≤ max cur.«end» r.«end»
      exact le_trans h1 (le_max_left _ _)
    · rw [if_neg hc] at hy
      rcases List.mem_cons.mp hy with rfl | hy'
      · exact h1
      · exact ih r (h2 r (List.mem_cons_self r rs))
          (fun x hx => h2 x (List.mem_cons_of_mem r hx)) y hy'

/-- Helper: on a start-sorted input the merge loop produces strictly
separated ranges (each range ends before the next one starts). -/
theorem mergeLoop_gap :
    ∀ (cur : HighlightRange) (l : List HighlightRange), l.Pairwise rangeLe →
      (∀ x ∈ l, cur.start ≤ x.start) →
      (mergeLoop cur l).Pairwise (fun a b => a.«end» < b.start) := by
  intro cur l
  induction l generalizing cur with
  | nil =>
    intro _ _
    simp [mergeLoop]
  | cons r rs ih =>
    intro hl hcur
    rw [List.pairwise_cons] at hl
    obtain ⟨hr_rs, hrs⟩ := hl
    simp only [mergeLoop]
    by_cases hc : r.start ≤ cur.«end»
    · rw [if_pos hc]
      exact ih ⟨cur.start, max cur.«end» r.«end»⟩ hrs
        (fun x hx => hcur x (List.mem_cons_of_mem r hx))
    · rw [if_neg hc]
      refine List.pairwise_cons.mpr ⟨?_, ih r hrs (fun x hx => hr_rs x hx)⟩
      intro y hy
      have hlb := mergeLoop_start_lb r.start r rs le_rfl (fun x hx => hr_rs x hx) y hy
      omega

/-- Helper: on a start-sorted input the merge loop neither loses nor gains
covered positions. -/
theorem mergeLoop_covers :
    ∀ (cur : HighlightRange) (l : List HighlightRange), l.Pairwise rangeLe →
      (∀ x ∈ l, cur.start ≤ x.start) → ∀ i,
      (covers (mergeLoop cur l) i ↔ ((cur.start ≤ i ∧ i < cur.«end») ∨ covers l i)) := by
  intro cur l
  induction l generalizing cur with
  | nil =>
    intro _ _ i
    simp only [mergeLoop]
    rw [covers_cons]
  | cons r rs ih =>
    intro hl hcur i
    rw [List.pairwise_cons] at hl
    obtain ⟨hr_rs, hrs⟩ := hl
    have hcr : cur.start ≤ r.start := hcur r (List.mem_cons_self r rs)
    simp only [mergeLoop]
    by_cases hc : r.start ≤ cur.«end»
    · rw [if_pos hc]
      rw [ih ⟨cur.start, max cur.«end» r.«end»⟩ hrs
        (fun x hx => hcur x (List.mem_cons_of_mem r hx)) i]
      rw [covers_cons]
      dsimp only
      constructor
      · rintro (⟨h1, h2⟩ | h)
        · rcases Nat.lt_or_ge i cur.«end» with h3 | h3
          · exact Or.inl ⟨h1, h3⟩
          · exact Or.inr (Or.inl ⟨by omega, by omega⟩)
        · exact Or.inr (Or.inr h)
      · rintro (⟨h1, h2⟩ | ⟨h1, h2⟩ | h)
        · exact Or.inl ⟨h1, by omega⟩
        · exact Or.inl ⟨by omega, by omega⟩
        · exact Or.inr h
    · rw [if_neg hc]
      rw [covers_cons, ih r hrs (fun x hx => hr_rs x hx) i, covers_cons]

/-- Helper: merging a start-sorted list preserves the covered positions. -/
theorem merge_covers (l : List HighlightRange) (hl : l.Pairwise rangeLe) (i : Nat) :
    covers (merge_overlapping l) i ↔ covers l i := by
  cases l with
  | nil => exact Iff.rfl
  | cons r rs =>
    rw [List.pairwise_cons] at hl
    show covers (mergeLoop r rs) i ↔ _
    rw [mergeLoop_covers r rs hl.2 (fun x hx => hl.1 x hx) i, covers_cons]

/-- Helper: merging a start-sorted list gives strictly separated ranges. -/
theorem merge_gap (l : List HighlightRange) (hl : l.Pairwise rangeLe) :
    (merge_overlapping l).Pairwise (fun a b => a.«end» < b.start) := by
  cases l with
  | nil => simp [merge_overlapping]
  | cons r rs =>
    rw [List.pairwise_cons] at hl
    exact mergeLoop_gap r rs hl.2 (fun x hx => hl.1 x hx)

/-- Helper: merging preserves well-formedness of the ranges. -/
theorem merge_wf (l : List HighlightRange) (hl : ∀ x ∈ l, x.start ≤ x.«end») :
    ∀ y ∈ merge_overlapping l, y.start ≤ y.«end» := by
  cases l with
  | nil => intro y hy; cases hy
  | cons r rs =>
    exact mergeLoop_wf r rs (hl r (List.mem_cons_self r rs))
      (fun x hx => hl x (List.mem_cons_of_mem r hx))

/-- Helper: a successful `findSub` is an occurrence. -/
theorem findSub_isPrefixOf {tok l : List Nat} {p : Nat}
    (h : findSub tok l = some p) : tok.isPrefixOf (l.drop p) = true := by
  induction l generalizing p with
  | nil =>
    rw [findSub] at h
    by_cases he : tok.isEmpty
    · rw [if_pos he] at h
      cases h
      cases tok with
      | nil => rfl
      | cons a as => simp [List.isEmpty] at he
    · rw [if_neg he] at h
      cases h
  | cons b rest ih =>
    rw [findSub] at h
    by_cases hp : tok.isPrefixOf (b :: rest) = true
    · rw [if_pos hp] at h
      cases h
      exact hp
    · rw [if_neg hp] at h
      rcases Option.map_eq_some'.mp h with ⟨q, hq, rfl⟩
      simpa using ih hq

/-- Helper: every range produced by the scan loop is an occurrence of the
token, with end equal to start plus the token byte length. -/
theorem scanTokenGo_mem {text tok : List Nat} :
    ∀ (fuel sf : Nat) (r : HighlightRange), r ∈ scanTokenGo text tok fuel sf →
      tok.isPrefixOf (text.drop r.start) = true ∧ r.«end» = r.start + tok.length := by
  intro fuel
  induction fuel with
  | zero => intro sf r hr; cases hr
  | succ f ih =>
    intro sf r hr
    rw [scanTokenGo] at hr
    match hf : findSub tok (text.drop sf) with
    | none =>
      rw [hf] at hr
      cases hr
    | some pos =>
      rw [hf] at hr
      rcases List.mem_cons.mp hr with rfl | hr'
      · constructor
        · have hpre := findSub_isPrefixOf hf
          rw [List.drop_drop] at hpre
          exact hpre
        · rfl
      · exact ih _ r hr'

/-- Helper: every raw range is an occurrence of some non-empty lowered token
in the lowered text. -/
theorem rawRanges_mem {text : String} {tokens : List String} {r : HighlightRange}
    (hr : r ∈ rawRanges text tokens) :
    ∃ tok ∈ tokens, strBytes (lowerStr tok) ≠ [] ∧
      (strBytes (lowerStr tok)).isPrefixOf
        ((strBytes (lowerStr text)).drop r.start) = true ∧
      r.«end» = r.start + (strBytes (lowerStr tok)).length := by
  unfold rawRanges at hr
  rcases List.mem_flatMap.mp hr with ⟨tok, htok, hmem⟩
  by_cases hb : (strBytes (lowerStr tok)).isEmpty
  · rw [if_pos hb] at hmem
    cases hmem
  · rw [if_neg hb] at hmem
    have hne : strBytes (lowerStr tok) ≠ [] := by
      intro h
      rw [h] at hb
      exact hb rfl
    unfold scanToken at hmem
    rw [if_neg hne] at hmem
    obtain ⟨h1, h2⟩ := scanTokenGo_mem _ _ r hmem
    exact ⟨tok, htok, hne, h1, h2⟩

/-- Helper: every raw range is well-formed. -/
theorem rawRanges_wf {text : String} {tokens : List String} {r : HighlightRange}
    (hr : r ∈ rawRanges text tokens) : r.start ≤ r.«end» := by
  obtain ⟨tok, _, _, _, h⟩ := rawRanges_mem hr
  omega

/-- C8 counterexample: with text "aaa" and token "aa" the token occurs at
byte offset 1, but the computed highlight is only the byte range [0, 2), so
byte 2 of that occurrence is not covered — the scan advances past each match
end and skips self-overlapping occurrences. -/
theorem claim_C8_counterexample :
    (strBytes (lowerStr "aa")).isPrefixOf ((strBytes (lowerStr "aaa")).drop 1) = true ∧
    find_highlights "aaa" ["aa"] = [⟨0, 2⟩] ∧
    ¬ covers (find_highlights "aaa" ["aa"]) 2 := by
  decide

/-- C8 amended: for every text and token list the highlight computation
returns byte ranges that are strictly separated (hence pairwise
non-overlapping), sorted by start, and covering exactly the positions of the
occurrences found by the stated algorithm — lowercase text and tokens, scan
each token left to right advancing past each match end, sort by start, merge
touching or overlapping ranges; every range found by the scan is a genuine
occurrence and is fully covered by the output, while occurrences overlapping
an earlier-found occurrence of the same token may be skipped. -/
theorem claim_C8 :
    (∀ (text : String) (tokens : List String),
        (find_highlights text tokens).Pairwise (fun a b => a.«end» < b.start))
  ∧ (∀ (text : String) (tokens : List String),
        (find_highlights text tokens).Pairwise rangeLe)
  ∧ (∀ (text : String) (tokens : List String) (i : Nat),
        covers (find_highlights text tokens) i ↔ covers (rawRanges text tokens) i)
  ∧ (∀ (text : String) (tokens : List String), ∀ r ∈ rawRanges text tokens,
        ∃ tok ∈ tokens, strBytes (lowerStr tok) ≠ [] ∧
          (strBytes (lowerStr tok)).isPrefixOf
            ((strBytes (lowerStr text)).drop r.start) = true ∧
          r.«end» = r.start + (strBytes (lowerStr tok)).length)
  ∧ (∀ (text : String) (tokens : List String), ∀ r ∈ rawRanges text tokens, ∀ i,
        r.start ≤ i → i < r.«end» → covers (find_highlights text tokens) i) := by
  have hsorted : ∀ (text : String) (tokens : List String),
      (List.insertionSort rangeLe (rawRanges text tokens)).Pairwise rangeLe :=
    fun text tokens => List.sorted_insertionSort rangeLe (rawRanges text tokens)
  have hgap : ∀ (text : String) (tokens : List String),
      (find_highlights text tokens).Pairwise (fun a b => a.«end» < b.start) :=
    fun text tokens => merge_gap _ (hsorted text tokens)
  have hcov : ∀ (text : String) (tokens : List String) (i : Nat),
      covers (find_highlights text tokens) i ↔ covers (rawRanges text tokens) i := by
    intro text tokens i
    show covers (merge_overlapping (List.insertionSort rangeLe (rawRanges text tokens))) i ↔ _
    rw [merge_covers _ (hsorted text tokens) i]
    exact covers_perm (List.perm_insertionSort rangeLe (rawRanges text tokens)) i
  refine ⟨hgap, ?_, hcov, ?_, ?_⟩
  · intro text tokens
    have hwf : ∀ y ∈ find_highlights text tokens, y.start ≤ y.«end» := by
      apply merge_wf
      intro x hx
      exact rawRanges_wf
        ((List.perm_insertionSort rangeLe (rawRanges text tokens)).mem_iff.mp hx)
    refine List.Pairwise.imp_of_mem ?_ (hgap text tokens)
    intro a b ha _ hab
    have hwa := hwf a ha
    show a.start ≤ b.start
    omega
  · intro text tokens r hr
    exact rawRanges_mem hr
  · intro text tokens r hr i h1 h2
    rw [hcov text tokens i]
    exact ⟨r, hr, h1, h2⟩

/-- Witness for C8: the hypothesis-bearing conjuncts at text "Hello World"
and token "hello", with the scanned range [0, 5) and covered position 3. -/
theorem claim_C8_witness :
    covers (find_highlights "Hello World" ["hello"]) 3 ∧
    (∃ tok ∈ ["hello"], strBytes (lowerStr tok) ≠ [] ∧
      (strBytes (lowerStr tok)).isPrefixOf
        ((strBytes (lowerStr "Hello World")).drop
          (⟨0, 5⟩ : HighlightRange).start) = true ∧
      (⟨0, 5⟩ : HighlightRange).«end» =
        (⟨0, 5⟩ : HighlightRange).start + (strBytes (lowerStr tok)).length) :=
  ⟨claim_C8.2.2.2.2 "Hello World" ["hello"] ⟨0, 5⟩ (by decide) 3 (by decide) (by decide),
   claim_C8.2.2.2.1 "Hello World" ["hello"] ⟨0, 5⟩ (by decide)⟩

/-- Embedding of `store::message::Cursor`: the keyset pagination cursor. -/
structure Cursor where
  timestamp : Int
  chat_id : Int
  message_id : Int
deriving DecidableEq

/-- Embedding of `store::message::MessageWithChat`: a message row joined with
its chat's title. -/
structure MessageWithChat where
  message_id : Int
  chat_id : Int
  timestamp : Int
  text_plain : String
  link : Option String
  chat_title : String
deriving DecidableEq

/-- Sort key of the global search ordering
`ORDER BY timestamp DESC, chat_id ASC, message_id ASC`, encoded so that the
SQL ordering is ascending lexicographic order on the triple. -/
def gkey (m : MessageWithChat) : Int × Int × Int :=
  (-m.timestamp, m.chat_id, m.message_id)

/-- The global sort key of a cursor. -/
def gkeyC (c : Cursor) : Int × Int × Int :=
  (-c.timestamp, c.chat_id, c.message_id)

/-- Sort key of the scoped search ordering
`ORDER BY timestamp DESC, message_id ASC`. -/
def skey (m : MessageWithChat) : Int × Int :=
  (-m.timestamp, m.message_id)

/-- The scoped sort key of a cursor. -/
def skeyC (c : Cursor) : Int × Int :=
  (-c.timestamp, c.message_id)

/-- Strict lexicographic order on key triples. -/
def keyLt3 (x y : Int × Int × Int) : Prop :=
  x.1 < y.1 ∨ (x.1 = y.1 ∧ (x.2.1 < y.2.1 ∨ (x.2.1 = y.2.1 ∧ x.2.2 < y.2.2)))

/-- Reflexive closure of `keyLt3`. -/
def keyLe3 (x y : Int × Int × Int) : Prop :=
  keyLt3 x y ∨ x = y

/-- Strict lexicographic order on key pairs. -/
def keyLt2 (x y : Int × Int) : Prop :=
  x.1 < y.1 ∨ (x.1 = y.1 ∧ x.2 < y.2)

/-- Reflexive closure of `keyLt2`. -/
def keyLe2 (x y : Int × Int) : Prop :=
  keyLt2 x y ∨ x = y

instance (x y : Int × Int × Int) : Decidable (keyLt3 x y) := by
  unfold keyLt3
  infer_instance

instance (x y : Int × Int × Int) : Decidable (keyLe3 x y) := by
  unfold keyLe3
  infer_instance

instance (x y : Int × Int) : Decidable (keyLt2 x y) := by
  unfold keyLt2
  infer_instance

instance (x y : Int × Int) : Decidable (keyLe2 x y) := by
  unfold keyLe2
  infer_instance

/-- The sort relation of the global search ordering. -/
def gle (a b : MessageWithChat) : Prop :=
  keyLe3 (gkey a) (gkey b)

/-- The sort relation of the scoped search ordering. -/
def sle (a b : MessageWithChat) : Prop :=
  keyLe2 (skey a) (skey b)

instance : DecidableRel gle := fun a b => by
  unfold gle
  infer_instance

instance : DecidableRel sle := fun a b => by
  unfold sle
  infer_instance

/-- Helper: totality of `keyLe3`. -/
theorem keyLe3_total (x y : Int × Int × Int) : keyLe3 x y ∨ keyLe3 y x := by
  obtain ⟨a1, a2, a3⟩ := x
  obtain ⟨b1, b2, b3⟩ := y
  simp only [keyLe3, keyLt3, Prod.mk.injEq]
  omega

/-- Helper: transitivity of `keyLe3`. -/
theorem keyLe3_trans {x y z : Int × Int × Int} (h1 : keyLe3 x y) (h2 : keyLe3 y z) :
    keyLe3 x z := by
  obtain ⟨a1, a2, a3⟩ := x
  obtain ⟨b1, b2, b3⟩ := y
  obtain ⟨c1, c2, c3⟩ := z
  simp only [keyLe3, keyLt3, Prod.mk.injEq] at h1 h2 ⊢
  omega

/-- Helper: `keyLe3` and distinctness give `keyLt3`. -/
theorem keyLt3_of_le_ne {x y : Int × Int × Int} (h : keyLe3 x y) (hne : x ≠ y) :
    keyLt3 x y := by
  rcases h with hlt | rfl
  · exact hlt
  · exact absurd rfl hne

/-- Helper: asymmetry of `keyLt3`. -/
theorem keyLt3_asymm {x y : Int × Int × Int} (h1 : keyLt3 x y) (h2 : keyLt3 y x) :
    False := by
  obtain ⟨a1, a2, a3⟩ := x
  obtain ⟨b1, b2, b3⟩ := y
  simp only [keyLt3] at h1 h2
  omega

/-- Helper: totality of `keyLe2`. -/
theorem keyLe2_total (x y : Int × Int) : keyLe2 x y ∨ keyLe2 y x := by
  obtain ⟨a1, a2⟩ := x
  obtain ⟨b1, b2⟩ := y
  simp only [keyLe2, keyLt2, Prod.mk.injEq]
  omega

/-- Helper: transitivity of `keyLe2`. -/
theorem keyLe2_trans {x y z : Int × Int} (h1 : keyLe2 x y) (h2 : keyLe2 y z) :
    keyLe2 x z := by
  obtain ⟨a1, a2⟩ := x
  obtain ⟨b1, b2⟩ := y
  obtain ⟨c1, c2⟩ := z
  simp only [keyLe2, keyLt2, Prod.mk.injEq] at h1 h2 ⊢
  omega

/-- Helper: `keyLe2` and distinctness give `keyLt2`. -/
theorem keyLt2_of_le_ne {x y : Int × Int} (h : keyLe2 x y) (hne : x ≠ y) :
    keyLt2 x y := by
  rcases h with hlt | rfl
  · exact hlt
  · exact absurd rfl hne

/-- Helper: asymmetry of `keyLt2`. -/
theorem keyLt2_asymm {x y : Int × Int} (h1 : keyLt2 x y) (h2 : keyLt2 y x) :
    False := by
  obtain ⟨a1, a2⟩ := x
  obtain ⟨b1, b2⟩ := y
  simp only [keyLt2] at h1 h2
  omega

instance : IsTotal MessageWithChat gle :=
  ⟨fun a b => keyLe3_total (gkey a) (gkey b)⟩

instance : IsTrans MessageWithChat gle :=
  ⟨fun _ _ _ h1 h2 => keyLe3_trans h1 h2⟩

instance : IsTotal MessageWithChat sle :=
  ⟨fun a b => keyLe2_total (skey a) (skey b)⟩

instance : IsTrans MessageWithChat sle :=
  ⟨fun _ _ _ h1 h2 => keyLe2_trans h1 h2⟩

/-- Embedding of the global cursor WHERE clause of
`store::message::search_messages_fts` / `search_messages_like`:
`timestamp < ? OR (timestamp = ? AND chat_id > ?) OR
(timestamp = ? AND chat_id = ? AND message_id > ?)`. -/
def cursor_ok_global (c : Cursor) (m : MessageWithChat) : Bool :=
  decide (m.timestamp < c.timestamp) ||
  (decide (m.timestamp = c.timestamp) && decide (c.chat_id < m.chat_id)) ||
  (decide (m.timestamp = c.timestamp) && decide (m.chat_id = c.chat_id) &&
    decide (c.message_id < m.message_id))

/-- Embedding of the scoped cursor WHERE clause of
`search_messages_fts_in_chat` / `search_messages_like_in_chat`:
`timestamp < ? OR (timestamp = ? AND message_id > ?)`. -/
def cursor_ok_scoped (c : Cursor) (m : MessageWithChat) : Bool :=
  decide (m.timestamp < c.timestamp) ||
  (decide (m.timestamp = c.timestamp) && decide (c.message_id < m.message_id))

/-- Helper: the global cursor clause is exactly the lexicographic
strictly-after predicate on the global sort key. -/
theorem cursor_ok_global_iff (c : Cursor) (m : MessageWithChat) :
    cursor_ok_global c m = true ↔ keyLt3 (gkeyC c) (gkey m) := by
  simp only [cursor_ok_global, keyLt3, gkeyC, gkey, Bool.or_eq_true,
    Bool.and_eq_true, decide_eq_true_eq]
  omega

/-- Helper: the scoped cursor clause is exactly the lexicographic
strictly-after predicate on the scoped sort key. -/
theorem cursor_ok_scoped_iff (c : Cursor) (m : MessageWithChat) :
    cursor_ok_scoped c m = true ↔ keyLt2 (skeyC c) (skey m) := by
  simp only [cursor_ok_scoped, keyLt2, skeyC, skey, Bool.or_eq_true,
    Bool.and_eq_true, decide_eq_true_eq]
  omega

/-- The engine builds the next-page cursor from the last kept row. -/
def cursor_of (m : MessageWithChat) : Cursor :=
  ⟨m.timestamp, m.chat_id, m.message_id⟩

/-- Embedding of the `JOIN chats ... AND c.is_excluded = 0` part shared by
all four search queries: each message row joined with its chat row, dropped
when the chat is missing or excluded. -/
def rowsJoined (s : Store) : List MessageWithChat :=
  s.messages.filterMap (fun m =>
    match s.chats.find? (fun c => c.chat_id == m.chat_id) with
    | some c =>
      if c.is_excluded then none
      else some ⟨m.message_id, m.chat_id, m.timestamp, m.text_plain, m.link, c.title⟩
    | none => none)

/-- Embedding of `store::message::search_messages_fts`.  The FTS5 `MATCH`
operator is an external engine and is passed in as the oracle `ftsMatch`,
applied to the query string and the indexed `text_plain` of the row; the
WHERE filter, ordering and `LIMIT` are modelled concretely. -/
def search_messages_fts (s : Store) (ftsMatch : String → String → Bool)
    (fts_query : String) (cursor : Option Cursor) (limit : Nat) :
    List MessageWithChat :=
  (List.insertionSort gle ((rowsJoined s).filter (fun m =>
    ftsMatch fts_query m.text_plain &&
    (match cursor with | none => true | some c => cursor_ok_global c m)))).take limit

/-- Embedding of `store::message::search_messages_fts_in_chat`. -/
def search_messages_fts_in_chat (s : Store) (ftsMatch : String → String → Bool)
    (fts_query : String) (chat_id : Int) (cursor : Option Cursor) (limit : Nat) :
    List MessageWithChat :=
  (List.insertionSort sle ((rowsJoined s).filter (fun m =>
    ftsMatch fts_query m.text_plain && m.chat_id == chat_id &&
    (match cursor with | none => true | some c => cursor_ok_scoped c m)))).take limit

/-- Embedding of `store::message::search_messages_like`: one AND-ed
`text_plain LIKE '%' || term || '%'` predicate per term; the SQL `LIKE`
operator is external and passed in as the oracle `likeMatch` applied to the
term and the row's `text_plain`. -/
def search_messages_like (s : Store) (likeMatch : String → String → Bool)
    (terms : List String) (cursor : Option Cursor) (limit : Nat) :
    List MessageWithChat :=
  if terms.isEmpty then []
  else
    (List.insertionSort gle ((rowsJoined s).filter (fun m =>
      terms.all (fun t => likeMatch t m.text_plain) &&
      (match cursor with | none => true | some c => cursor_ok_global c m)))).take limit

/-- Embedding of `store::message::search_messages_like_in_chat`. -/
def search_messages_like_in_chat (s : Store) (likeMatch : String → String → Bool)
    (terms : List String) (chat_id : Int) (cursor : Option Cursor) (limit : Nat) :
    List MessageWithChat :=
  if terms.isEmpty then []
  else
    (List.insertionSort sle ((rowsJoined s).filter (fun m =>
      terms.all (fun t => likeMatch t m.text_plain) && m.chat_id == chat_id &&
      (match cursor with | none => true | some c => cursor_ok_scoped c m)))).take limit

/-- Embedding of `search::engine::SearchScope`. -/
inductive SearchScope where
  | all : SearchScope
  | chat (chat_id : Int) : SearchScope

/-- Embedding of `search::SearchItem`. -/
structure SearchItem where
  message_id : Int
  chat_id : Int
  timestamp : Int
  text : String
  link : Option String
  chat_title : String
  highlights : List HighlightRange
deriving DecidableEq

/-- Embedding of `search::SearchResult`. -/
structure SearchResult where
  items : List SearchItem
  next_cursor : Option Cursor
deriving DecidableEq

/-- Embedding of `search::engine::DEFAULT_PAGE_SIZE`. -/
def DEFAULT_PAGE_SIZE : Nat := 30

/-- Embedding of `search::engine::build_fts_query`: each whitespace-separated
term is wrapped in double quotes with inner quotes doubled, and the terms are
joined by single spaces (FTS5 AND semantics). -/
def build_fts_query (query : String) : String :=
  String.intercalate " "
    ((split_whitespace query).map (fun term =>
      "\"" ++ term.replace "\"" "\"\"" ++ "\""))

/-- The fetch step of `search::engine::search`: choose the FTS trigram path
when every term has at least 3 scalar values, the LIKE fallback otherwise,
and dispatch on the scope. -/
def fetchRows (s : Store) (ftsM likeM : String → String → Bool) (qt : String)
    (tokens : List String) (scope : SearchScope) (cursor : Option Cursor)
    (n : Nat) : List MessageWithChat :=
  let use_fts := tokens.all (fun t => decide (3 ≤ t.length))
  if use_fts then
    match scope with
    | .all => search_messages_fts s ftsM (build_fts_query qt) cursor n
    | .chat cid => search_messages_fts_in_chat s ftsM (build_fts_query qt) cid cursor n
  else
    match scope with
    | .all => search_messages_like s likeM tokens cursor n
    | .chat cid => search_messages_like_in_chat s likeM tokens cid cursor n

/-- The mapping of a fetched row to a result item, with highlights. -/
def toSearchItem (tokens : List String) (m : MessageWithChat) : SearchItem :=
  ⟨m.message_id, m.chat_id, m.timestamp, m.text_plain, m.link, m.chat_title,
    find_highlights m.text_plain tokens⟩

/-- The paging tail of `search::engine::search`: `limit+1` rows were
requested; if more than `limit` came back the extra row is dropped and a
cursor to the last kept row is emitted. -/
def postProcess (tokens : List String) (limit : Nat)
    (messages : List MessageWithChat) : SearchResult :=
  let has_more := limit < messages.length
  let results := if has_more then messages.take limit else messages
  let next_cursor := if has_more then results.getLast?.map cursor_of else none
  ⟨results.map (toSearchItem tokens), next_cursor⟩

/-- Embedding of `search::engine::search`: trim the query (empty → empty
result), tokenize on whitespace, fetch `limit+1` rows by the chosen path,
and post-process into a page plus optional cursor. -/
def search (s : Store) (ftsM likeM : String → String → Bool) (query : String)
    (scope : SearchScope) (cursor : Option Cursor) (limitOpt : Option Nat) :
    SearchResult :=
  let limit := limitOpt.getD DEFAULT_PAGE_SIZE
  let qt := rustTrim query
  if qt = "" then ⟨[], none⟩
  else
    let tokens := split_whitespace qt
    if tokens.isEmpty then ⟨[], none⟩
    else postProcess tokens limit (fetchRows s ftsM likeM qt tokens scope cursor (limit + 1))

/-- Repeatedly calling a page function, feeding each returned cursor into the
next call, and concatenating the pages (with fuel bounding the number of
pages). -/
def pagesAux (page : Option Cursor → SearchResult) : Nat → Option Cursor → List SearchItem
  | 0, _ => []
  | fuel + 1, c =>
    let r := page c
    match r.next_cursor with
    | none => r.items
    | some c2 => r.items ++ pagesAux page fuel (some c2)

/-- Repeatedly calling `search` with the cursor returned by the previous
page, starting from `c0`, concatenating the pages. -/
def collectPages (s : Store) (ftsM likeM : String → String → Bool) (query : String)
    (scope : SearchScope) (limit : Nat) (fuel : Nat) (c0 : Option Cursor) :
    List SearchItem :=
  pagesAux (fun c => search s ftsM likeM query scope c (some limit)) fuel c0


/-- Helper: two lists that are permutations of each other and both strictly
sorted by an asymmetric relation are equal. -/
theorem perm_pairwise_eq {α : Type} {lt : α → α → Prop}
    (hasym : ∀ a b, lt a b → lt b a → False) :
    ∀ {l₁ l₂ : List α}, l₁.Perm l₂ → l₁.Pairwise lt → l₂.Pairwise lt → l₁ = l₂ := by
  intro l₁
  induction l₁ with
  | nil =>
    intro l₂ hp _ _
    exact hp.nil_eq
  | cons a t ih =>
    intro l₂ hp h₁ h₂
    cases l₂ with
    | nil =>
      have ha : a ∈ ([] : List α) := hp.mem_iff.mp (List.mem_cons_self a t)
      cases ha
    | cons b t₂ =>
      have hab : a = b := by
        by_contra hne
        have ha2 : a ∈ b :: t₂ := hp.mem_iff.mp (List.mem_cons_self a t)
        have hb1 : b ∈ a :: t := hp.mem_iff.mpr (List.mem_cons_self b t₂)
        rcases List.mem_cons.mp ha2 with h | ha2'
        · exact hne h
        rcases List.mem_cons.mp hb1 with h | hb1'
        · exact hne h.symm
        have hlt1 : lt a b := (List.pairwise_cons.mp h₁).1 b hb1'
        have hlt2 : lt b a := (List.pairwise_cons.mp h₂).1 a ha2'
        exact hasym a b hlt1 hlt2
      subst hab
      have hpt : t.Perm t₂ := hp.cons_inv
      rw [ih hpt (List.pairwise_cons.mp h₁).2 (List.pairwise_cons.mp h₂).2]

/-- Helper: a list sorted by a key-based reflexive relation whose key images
are distinct is strictly sorted. -/
theorem pairwise_strict {α κ : Type} {key : α → κ} {r : α → α → Prop}
    {lt : κ → κ → Prop} (hof : ∀ a b, r a b → key a ≠ key b → lt (key a) (key b))
    {l : List α} (hp : l.Pairwise r) (hn : (l.map key).Nodup) :
    l.Pairwise (fun a b => lt (key a) (key b)) := by
  have hne : l.Pairwise (fun a b => key a ≠ key b) := List.pairwise_map.mp hn
  exact (hp.and hne).imp (fun h => hof _ _ h.1 h.2)

/-- Helper: in a strictly key-sorted list, filtering by "strictly after the
key of the element at index i" drops exactly the first i+1 elements. -/
theorem filter_after {α κ : Type} {key : α → κ} {lt : κ → κ → Prop}
    (hasym : ∀ x y, lt x y → lt y x → False) :
    ∀ (l : List α), l.Pairwise (fun a b => lt (key a) (key b)) →
      ∀ (i : Nat) (hi : i < l.length) (pb : α → Bool),
      (∀ m ∈ l, (pb m = true ↔ lt (key (l.get ⟨i, hi⟩)) (key m))) →
      l.filter pb = l.drop (i + 1) := by
  intro l
  induction l with
  | nil =>
    intro _ i hi
    cases hi
  | cons a t ih =>
    intro hp i hi pb hpb
    rcases List.pairwise_cons.mp hp with ⟨ha_t, hpt⟩
    cases i with
    | zero =>
      have hpa : pb a = false := by
        by_contra h
        have := (hpb a (List.mem_cons_self a t)).mp (by
          cases hb : pb a
          · exact absurd hb h
          · rfl)
        exact hasym _ _ this this
      rw [List.filter_cons, if_neg (by simp [hpa])]
      rw [List.drop_succ_cons, List.drop_zero]
      apply List.filter_eq_self.mpr
      intro x hx
      exact (hpb x (List.mem_cons_of_mem a hx)).mpr (ha_t x hx)
    | succ j =>
      have hj : j < t.length := by
        have := hi
        simp only [List.length_cons] at this
        omega
      have hget : (a :: t).get ⟨j + 1, hi⟩ = t.get ⟨j, hj⟩ := rfl
      have hpa : pb a = false := by
        by_contra h
        have h1 := (hpb a (List.mem_cons_self a t)).mp (by
          cases hb : pb a
          · exact absurd hb h
          · rfl)
        rw [hget] at h1
        have h2 : lt (key a) (key (t.get ⟨j, hj⟩)) := ha_t _ (List.get_mem t _ _)
        exact hasym _ _ h1 h2
      rw [List.filter_cons, if_neg (by simp [hpa])]
      rw [List.drop_succ_cons]
      apply ih hpt j hj pb
      intro m hm
      rw [← hget]
      exact hpb m (List.mem_cons_of_mem a hm)

/-- Helper: mapping a key through a `filterMap` that preserves it yields a
sublist of the keys of the input. -/
theorem map_filterMap_sublist {α β κ : Type} (f : α → Option β) (g : β → κ)
    (h : α → κ) (hfg : ∀ a b, f a = some b → g b = h a) (l : List α) :
    ((l.filterMap f).map g).Sublist (l.map h) := by
  induction l with
  | nil => simp
  | cons a t ih =>
    rw [List.filterMap_cons, List.map_cons]
    cases hfa : f a with
    | none => exact ih.cons (h a)
    | some b =>
      rw [List.map_cons, hfg a b hfa]
      exact ih.cons₂ (h a)

/-- Primary-key view of a joined row. -/
def pkOf (m : MessageWithChat) : Int × Int :=
  (m.chat_id, m.message_id)

/-- Primary-key view of a base message row. -/
def pkOfRow (m : MessageRow) : Int × Int :=
  (m.chat_id, m.message_id)

/-- Helper: the join preserves primary keys, so the joined keys form a
sublist of the base-table keys. -/
theorem rowsJoined_pk_sublist (s : Store) :
    ((rowsJoined s).map pkOf).Sublist (s.messages.map pkOfRow) := by
  apply map_filterMap_sublist
  intro a b hab
  rcases hfind : s.chats.find? (fun c => c.chat_id == a.chat_id) with _ | c
  · simp only [hfind] at hab
    cases hab
  · simp only [hfind] at hab
    by_cases hex : c.is_excluded
    · rw [if_pos hex] at hab
      cases hab
    · rw [if_neg hex] at hab
      cases hab
      rfl

/-- Helper: distinct primary keys give distinct global sort keys. -/
theorem gkey_nodup_of_pk {l : List MessageWithChat} (h : (l.map pkOf).Nodup) :
    (l.map gkey).Nodup := by
  have h' : l.Pairwise (fun a b => pkOf a ≠ pkOf b) := List.pairwise_map.mp h
  unfold List.Nodup
  apply List.pairwise_map.mpr
  refine h'.imp ?_
  intro a b hne heq
  apply hne
  simp only [gkey, Prod.mk.injEq] at heq
  simp only [pkOf, Prod.mk.injEq]
  exact ⟨heq.2.1, heq.2.2⟩

/-- Helper: within one chat, distinct primary keys give distinct scoped sort
keys. -/
theorem skey_nodup_of_pk {l : List MessageWithChat} (cid : Int)
    (hchat : ∀ m ∈ l, m.chat_id = cid) (h : (l.map pkOf).Nodup) :
    (l.map skey).Nodup := by
  have h' : l.Pairwise (fun a b => pkOf a ≠ pkOf b) := List.pairwise_map.mp h
  unfold List.Nodup
  apply List.pairwise_map.mpr
  refine List.Pairwise.imp_of_mem ?_ h'
  intro a b ha hb hne heq
  apply hne
  simp only [skey, Prod.mk.injEq] at heq
  simp only [pkOf, Prod.mk.injEq]
  exact ⟨(hchat a ha).trans (hchat b hb).symm, heq.2⟩

/-- The full sorted global result set for a fixed row predicate: every
joined, non-excluded row satisfying the predicate, in the global search
order. -/
def sortedMatchesG (s : Store) (p : MessageWithChat → Bool) : List MessageWithChat :=
  List.insertionSort gle ((rowsJoined s).filter p)

/-- The full sorted scoped result set for a fixed row predicate. -/
def sortedMatchesS (s : Store) (p : MessageWithChat → Bool) : List MessageWithChat :=
  List.insertionSort sle ((rowsJoined s).filter p)

/-- Helper: with distinct base-table primary keys, the global sort keys of
any sorted match list are distinct. -/
theorem sortedMatchesG_gkey_nodup (s : Store) (p : MessageWithChat → Bool)
    (hpk : (s.messages.map pkOfRow).Nodup) :
    ((sortedMatchesG s p).map gkey).Nodup := by
  have h1 : ((rowsJoined s).map pkOf).Nodup :=
    hpk.sublist (rowsJoined_pk_sublist s)
  have h2 : (((rowsJoined s).filter p).map pkOf).Nodup :=
    h1.sublist ((List.filter_sublist _).map pkOf)
  have h3 : (((rowsJoined s).filter p).map gkey).Nodup := gkey_nodup_of_pk h2
  have hperm : ((sortedMatchesG s p).map gkey).Perm
      ((((rowsJoined s).filter p)).map gkey) :=
    (List.perm_insertionSort gle _).map gkey
  exact hperm.nodup_iff.mpr h3

/-- Helper: the sorted global match list is strictly sorted on its key. -/
theorem sortedMatchesG_pairwise (s : Store) (p : MessageWithChat → Bool)
    (hpk : (s.messages.map pkOfRow).Nodup) :
    (sortedMatchesG s p).Pairwise (fun a b => keyLt3 (gkey a) (gkey b)) := by
  refine pairwise_strict (fun a b h hne => keyLt3_of_le_ne h hne) ?_
    (sortedMatchesG_gkey_nodup s p hpk)
  exact List.sorted_insertionSort gle _

/-- Helper: with distinct primary keys and a predicate that pins the chat,
the scoped sort keys of the sorted match list are distinct. -/
theorem sortedMatchesS_skey_nodup (s : Store) (p : MessageWithChat → Bool)
    (cid : Int) (hchat : ∀ m, p m = true → m.chat_id = cid)
    (hpk : (s.messages.map pkOfRow).Nodup) :
    ((sortedMatchesS s p).map skey).Nodup := by
  have h1 : ((rowsJoined s).map pkOf).Nodup :=
    hpk.sublist (rowsJoined_pk_sublist s)
  have h2 : (((rowsJoined s).filter p).map pkOf).Nodup :=
    h1.sublist ((List.filter_sublist _).map pkOf)
  have h3 : (((rowsJoined s).filter p).map skey).Nodup := by
    refine skey_nodup_of_pk cid ?_ h2
    intro m hm
    exact hchat m (List.of_mem_filter hm)
  have hperm : ((sortedMatchesS s p).map skey).Perm
      ((((rowsJoined s).filter p)).map skey) :=
    (List.perm_insertionSort sle _).map skey
  exact hperm.nodup_iff.mpr h3

/-- Helper: the sorted scoped match list is strictly sorted on its key. -/
theorem sortedMatchesS_pairwise (s : Store) (p : MessageWithChat → Bool)
    (cid : Int) (hchat : ∀ m, p m = true → m.chat_id = cid)
    (hpk : (s.messages.map pkOfRow).Nodup) :
    (sortedMatchesS s p).Pairwise (fun a b => keyLt2 (skey a) (skey b)) := by
  refine pairwise_strict (fun a b h hne => keyLt2_of_le_ne h hne) ?_
    (sortedMatchesS_skey_nodup s p cid hchat hpk)
  exact List.sorted_insertionSort sle _

/-- Helper: sorting the rows that pass both the base predicate and an extra
filter equals filtering the sorted match list (global order). -/
theorem sortG_filter_cursor (s : Store) (p cb : MessageWithChat → Bool)
    (hpk : (s.messages.map pkOfRow).Nodup) :
    List.insertionSort gle ((rowsJoined s).filter (fun m => p m && cb m)) =
      (sortedMatchesG s p).filter cb := by
  apply @perm_pairwise_eq MessageWithChat (fun a b => keyLt3 (gkey a) (gkey b))
    (fun a b h1 h2 => keyLt3_asymm h1 h2)
  · have hperm1 : (List.insertionSort gle ((rowsJoined s).filter (fun m => p m && cb m))).Perm
        ((rowsJoined s).filter (fun m => p m && cb m)) :=
      List.perm_insertionSort _ _
    have heq : (rowsJoined s).filter (fun m => p m && cb m) =
        ((rowsJoined s).filter p).filter cb := by
      rw [List.filter_filter]
      exact List.filter_congr (fun m _ => by rw [Bool.and_comm])
    have hperm2 : (((rowsJoined s).filter p).filter cb).Perm
        ((sortedMatchesG s p).filter cb) :=
      (List.perm_insertionSort gle ((rowsJoined s).filter p)).symm.filter cb
    have hperm2' : ((rowsJoined s).filter (fun m => p m && cb m)).Perm
        ((sortedMatchesG s p).filter cb) := by
      rw [heq]
      exact hperm2
    exact hperm1.trans hperm2'
  · refine pairwise_strict (fun a b h hne => keyLt3_of_le_ne h hne) ?_ ?_
    · exact List.sorted_insertionSort gle _
    · exact sortedMatchesG_gkey_nodup s (fun m => p m && cb m) hpk
  · exact (sortedMatchesG_pairwise s p hpk).sublist (List.filter_sublist _)

/-- Helper: the scoped analogue of `sortG_filter_cursor`. -/
theorem sortS_filter_cursor (s : Store) (p cb : MessageWithChat → Bool)
    (cid : Int) (hchat : ∀ m, p m = true → m.chat_id = cid)
    (hpk : (s.messages.map pkOfRow).Nodup) :
    List.insertionSort sle ((rowsJoined s).filter (fun m => p m && cb m)) =
      (sortedMatchesS s p).filter cb := by
  apply @perm_pairwise_eq MessageWithChat (fun a b => keyLt2 (skey a) (skey b))
    (fun a b h1 h2 => keyLt2_asymm h1 h2)
  · have hperm1 : (List.insertionSort sle ((rowsJoined s).filter (fun m => p m && cb m))).Perm
        ((rowsJoined s).filter (fun m => p m && cb m)) :=
      List.perm_insertionSort _ _
    have heq : (rowsJoined s).filter (fun m => p m && cb m) =
        ((rowsJoined s).filter p).filter cb := by
      rw [List.filter_filter]
      exact List.filter_congr (fun m _ => by rw [Bool.and_comm])
    have hperm2 : (((rowsJoined s).filter p).filter cb).Perm
        ((sortedMatchesS s p).filter cb) :=
      (List.perm_insertionSort sle ((rowsJoined s).filter p)).symm.filter cb
    have hperm2' : ((rowsJoined s).filter (fun m => p m && cb m)).Perm
        ((sortedMatchesS s p).filter cb) := by
      rw [heq]
      exact hperm2
    exact hperm1.trans hperm2'
  · refine pairwise_strict (fun a b h hne => keyLt2_of_le_ne h hne) ?_ ?_
    · exact List.sorted_insertionSort sle _
    · refine sortedMatchesS_skey_nodup s (fun m => p m && cb m) cid ?_ hpk
      intro m hm
      rw [Bool.and_eq_true] at hm
      exact hchat m hm.1
  · exact (sortedMatchesS_pairwise s p cid hchat hpk).sublist (List.filter_sublist _)

/-- Helper: the cursor built from a row carries exactly the row's global
sort key. -/
theorem gkeyC_cursor_of (m : MessageWithChat) : gkeyC (cursor_of m) = gkey m := rfl

/-- Helper: the cursor built from a row carries exactly the row's scoped
sort key. -/
theorem skeyC_cursor_of (m : MessageWithChat) : skeyC (cursor_of m) = skey m := rfl

/-- Helper: a cursorless FTS fetch is a prefix of the sorted match list. -/
theorem search_messages_fts_none (s : Store) (fm : String → String → Bool)
    (fq : String) (n : Nat) :
    search_messages_fts s fm fq none n =
      (sortedMatchesG s (fun m => fm fq m.text_plain)).take n := by
  unfold search_messages_fts sortedMatchesG
  rw [show ((rowsJoined s).filter (fun m => fm fq m.text_plain && true)) =
    (rowsJoined s).filter (fun m => fm fq m.text_plain) from
    List.filter_congr (fun m _ => Bool.and_true _)]

/-- Helper: an FTS fetch from the cursor of the i-th sorted match is a
prefix of the matches strictly after position i. -/
theorem search_messages_fts_get (s : Store) (fm : String → String → Bool)
    (fq : String) (hpk : (s.messages.map pkOfRow).Nodup) (i : Nat)
    (hi : i < (sortedMatchesG s (fun m => fm fq m.text_plain)).length) (n : Nat) :
    search_messages_fts s fm fq
      (some (cursor_of ((sortedMatchesG s (fun m => fm fq m.text_plain)).get ⟨i, hi⟩))) n =
      ((sortedMatchesG s (fun m => fm fq m.text_plain)).drop (i + 1)).take n := by
  unfold search_messages_fts
  rw [show ((rowsJoined s).filter (fun m => fm fq m.text_plain &&
      (match (some (cursor_of ((sortedMatchesG s (fun m => fm fq m.text_plain)).get ⟨i, hi⟩)) : Option Cursor) with
        | none => true | some c => cursor_ok_global c m))) =
    (rowsJoined s).filter (fun m => fm fq m.text_plain &&
      cursor_ok_global (cursor_of ((sortedMatchesG s (fun m => fm fq m.text_plain)).get ⟨i, hi⟩)) m) from rfl]
  rw [sortG_filter_cursor s (fun m => fm fq m.text_plain) _ hpk]
  rw [@filter_after MessageWithChat (Int × Int × Int) gkey keyLt3
    (fun x y h1 h2 => keyLt3_asymm h1 h2) _
    (sortedMatchesG_pairwise s (fun m => fm fq m.text_plain) hpk) i hi _ ?_]
  intro m _
  rw [cursor_ok_global_iff, gkeyC_cursor_of]

/-- Helper: a cursorless LIKE fetch is a prefix of the sorted match list. -/
theorem search_messages_like_none (s : Store) (lm : String → String → Bool)
    (terms : List String) (hterms : terms ≠ []) (n : Nat) :
    search_messages_like s lm terms none n =
      (sortedMatchesG s (fun m => terms.all (fun t => lm t m.text_plain))).take n := by
  unfold search_messages_like sortedMatchesG
  rw [if_neg (by simpa using hterms)]
  rw [show ((rowsJoined s).filter (fun m => terms.all (fun t => lm t m.text_plain) && true)) =
    (rowsJoined s).filter (fun m => terms.all (fun t => lm t m.text_plain)) from
    List.filter_congr (fun m _ => Bool.and_true _)]

/-- Helper: a LIKE fetch from the cursor of the i-th sorted match is a
prefix of the matches strictly after position i. -/
theorem search_messages_like_get (s : Store) (lm : String → String → Bool)
    (terms : List String) (hterms : terms ≠ [])
    (hpk : (s.messages.map pkOfRow).Nodup) (i : Nat)
    (hi : i < (sortedMatchesG s (fun m => terms.all (fun t => lm t m.text_plain))).length)
    (n : Nat) :
    search_messages_like s lm terms
      (some (cursor_of ((sortedMatchesG s
        (fun m => terms.all (fun t => lm t m.text_plain))).get ⟨i, hi⟩))) n =
      ((sortedMatchesG s (fun m => terms.all (fun t => lm t m.text_plain))).drop (i + 1)).take n := by
  unfold search_messages_like
  rw [if_neg (by simpa using hterms)]
  rw [sortG_filter_cursor s (fun m => terms.all (fun t => lm t m.text_plain)) _ hpk]
  rw [@filter_after MessageWithChat (Int × Int × Int) gkey keyLt3
    (fun x y h1 h2 => keyLt3_asymm h1 h2) _
    (sortedMatchesG_pairwise s (fun m => terms.all (fun t => lm t m.text_plain)) hpk) i hi _ ?_]
  intro m _
  rw [cursor_ok_global_iff, gkeyC_cursor_of]

/-- Helper: a cursorless scoped FTS fetch is a prefix of the scoped sorted
match list. -/
theorem search_messages_fts_in_chat_none (s : Store) (fm : String → String → Bool)
    (fq : String) (cid : Int) (n : Nat) :
    search_messages_fts_in_chat s fm fq cid none n =
      (sortedMatchesS s (fun m => fm fq m.text_plain && m.chat_id == cid)).take n := by
  unfold search_messages_fts_in_chat sortedMatchesS
  rw [show ((rowsJoined s).filter (fun m => fm fq m.text_plain && m.chat_id == cid && true)) =
    (rowsJoined s).filter (fun m => fm fq m.text_plain && m.chat_id == cid) from
    List.filter_congr (fun m _ => Bool.and_true _)]

/-- Helper: a scoped FTS fetch from the cursor of the i-th scoped match is a
prefix of the scoped matches strictly after position i. -/
theorem search_messages_fts_in_chat_get (s : Store) (fm : String → String → Bool)
    (fq : String) (cid : Int) (hpk : (s.messages.map pkOfRow).Nodup) (i : Nat)
    (hi : i < (sortedMatchesS s (fun m => fm fq m.text_plain && m.chat_id == cid)).length)
    (n : Nat) :
    search_messages_fts_in_chat s fm fq cid
      (some (cursor_of ((sortedMatchesS s
        (fun m => fm fq m.text_plain && m.chat_id == cid)).get ⟨i, hi⟩))) n =
      ((sortedMatchesS s (fun m => fm fq m.text_plain && m.chat_id == cid)).drop (i + 1)).take n := by
  unfold search_messages_fts_in_chat
  rw [sortS_filter_cursor s (fun m => fm fq m.text_plain && m.chat_id == cid) _ cid
    (fun m hm => by rw [Bool.and_eq_true] at hm; simpa using hm.2) hpk]
  rw [@filter_after MessageWithChat (Int × Int) skey keyLt2
    (fun x y h1 h2 => keyLt2_asymm h1 h2) _
    (sortedMatchesS_pairwise s (fun m => fm fq m.text_plain && m.chat_id == cid) cid
      (fun m hm => by rw [Bool.and_eq_true] at hm; simpa using hm.2) hpk) i hi _ ?_]
  intro m _
  rw [cursor_ok_scoped_iff, skeyC_cursor_of]

/-- Helper: a cursorless scoped LIKE fetch is a prefix of the scoped sorted
match list. -/
theorem search_messages_like_in_chat_none (s : Store) (lm : String → String → Bool)
    (terms : List String) (hterms : terms ≠ []) (cid : Int) (n : Nat) :
    search_messages_like_in_chat s lm terms cid none n =
      (sortedMatchesS s (fun m =>
        terms.all (fun t => lm t m.text_plain) && m.chat_id == cid)).take n := by
  unfold search_messages_like_in_chat sortedMatchesS
  rw [if_neg (by simpa using hterms)]
  rw [show ((rowsJoined s).filter (fun m =>
      terms.all (fun t => lm t m.text_plain) && m.chat_id == cid && true)) =
    (rowsJoined s).filter (fun m =>
      terms.all (fun t => lm t m.text_plain) && m.chat_id == cid) from
    List.filter_congr (fun m _ => Bool.and_true _)]

/-- Helper: a scoped LIKE fetch from the cursor of the i-th scoped match is
a prefix of the scoped matches strictly after position i. -/
theorem search_messages_like_in_chat_get (s : Store) (lm : String → String → Bool)
    (terms : List String) (hterms : terms ≠ []) (cid : Int)
    (hpk : (s.messages.map pkOfRow).Nodup) (i : Nat)
    (hi : i < (sortedMatchesS s (fun m =>
      terms.all (fun t => lm t m.text_plain) && m.chat_id == cid)).length) (n : Nat) :
    search_messages_like_in_chat s lm terms cid
      (some (cursor_of ((sortedMatchesS s (fun m =>
        terms.all (fun t => lm t m.text_plain) && m.chat_id == cid)).get ⟨i, hi⟩))) n =
      ((sortedMatchesS s (fun m =>
        terms.all (fun t => lm t m.text_plain) && m.chat_id == cid)).drop (i + 1)).take n := by
  unfold search_messages_like_in_chat
  rw [if_neg (by simpa using hterms)]
  rw [sortS_filter_cursor s (fun m =>
      terms.all (fun t => lm t m.text_plain) && m.chat_id == cid) _ cid
    (fun m hm => by rw [Bool.and_eq_true] at hm; simpa using hm.2) hpk]
  rw [@filter_after MessageWithChat (Int × Int) skey keyLt2
    (fun x y h1 h2 => keyLt2_asymm h1 h2) _
    (sortedMatchesS_pairwise s (fun m =>
        terms.all (fun t => lm t m.text_plain) && m.chat_id == cid) cid
      (fun m hm => by rw [Bool.and_eq_true] at hm; simpa using hm.2) hpk) i hi _ ?_]
  intro m _
  rw [cursor_ok_scoped_iff, skeyC_cursor_of]

/-- Helper: when at most `limit` rows came back, everything is returned and
no cursor is emitted. -/
theorem postProcess_small (tokens : List String) (limit : Nat)
    (msgs : List MessageWithChat) (h : msgs.length ≤ limit) :
    postProcess tokens limit msgs = ⟨msgs.map (toSearchItem tokens), none⟩ := by
  unfold postProcess
  dsimp only
  simp only [if_neg (show ¬ limit < msgs.length from by omega)]

/-- Helper: when more than `limit` rows came back, the page is the first
`limit` rows and the cursor points at the last kept row. -/
theorem postProcess_big (tokens : List String) (limit : Nat)
    (msgs : List MessageWithChat) (h : limit < msgs.length) :
    postProcess tokens limit msgs =
      ⟨(msgs.take limit).map (toSearchItem tokens),
        (msgs.take limit).getLast?.map cursor_of⟩ := by
  unfold postProcess
  dsimp only
  simp only [if_pos h]

/-- Helper: one step of the word splitter on a cons. -/
theorem splitWsChars_cons (acc : List Char) (c : Char) (cs : List Char) :
    splitWsChars acc (c :: cs) =
      if isRustWhitespace c then
        (match acc with
         | [] => splitWsChars [] cs
         | _ => acc.reverse :: splitWsChars [] cs)
      else splitWsChars (c :: acc) cs := rfl

/-- Helper: the word splitter returns nothing exactly when the accumulator
is empty and every remaining character is whitespace. -/
theorem splitWsChars_eq_nil {acc l : List Char} :
    splitWsChars acc l = [] ↔ (acc = [] ∧ ∀ c ∈ l, isRustWhitespace c = true) := by
  induction l generalizing acc with
  | nil =>
    cases acc with
    | nil =>
      constructor
      · intro _
        exact ⟨rfl, fun c hc => absurd hc (List.not_mem_nil c)⟩
      · intro _
        rfl
    | cons a t =>
      constructor
      · intro hx
        exact absurd hx (List.cons_ne_nil _ _)
      · rintro ⟨hx, _⟩
        exact absurd hx (List.cons_ne_nil a t)
  | cons c cs ih =>
    rw [splitWsChars_cons]
    by_cases hc : isRustWhitespace c = true
    · rw [if_pos hc]
      cases acc with
      | nil =>
        show splitWsChars [] cs = [] ↔ _
        rw [ih]
        simp [hc]
      | cons a t =>
        show (a :: t).reverse :: splitWsChars [] cs = [] ↔ _
        simp
    · rw [if_neg hc]
      rw [ih]
      simp [hc]

/-- Helper: the first character surviving a `dropWhile` fails the predicate. -/
theorem dropWhile_head_not {p : Char → Bool} :
    ∀ {l : List Char} {c : Char} {rest : List Char},
      l.dropWhile p = c :: rest → p c = false := by
  intro l
  induction l with
  | nil =>
    intro c rest h
    cases h
  | cons a t ih =>
    intro c rest h
    rw [List.dropWhile_cons] at h
    by_cases ha : p a = true
    · rw [if_pos ha] at h
      exact ih h
    · rw [if_neg ha] at h
      cases h
      simpa using ha

/-- Helper: a non-empty trimmed string contains a non-whitespace character. -/
theorem rustTrim_has_nonws (s : String) (h : rustTrim s ≠ "") :
    ∃ c ∈ (rustTrim s).data, isRustWhitespace c = false := by
  cases hcase : (s.data.dropWhile isRustWhitespace).reverse.dropWhile isRustWhitespace with
  | nil =>
    exfalso
    apply h
    unfold rustTrim
    rw [hcase]
    rfl
  | cons c rest =>
    have hc : isRustWhitespace c = false := dropWhile_head_not hcase
    refine ⟨c, ?_, hc⟩
    show c ∈ ((s.data.dropWhile isRustWhitespace).reverse.dropWhile isRustWhitespace).reverse
    rw [hcase]
    simp

/-- Helper: a non-empty trimmed query splits into at least one term. -/
theorem words_of_trim_ne (s : String) (h : rustTrim s ≠ "") :
    split_whitespace (rustTrim s) ≠ [] := by
  intro hw
  unfold split_whitespace at hw
  have h2 : splitWsChars [] (rustTrim s).data = [] := by
    cases hsp : splitWsChars [] (rustTrim s).data with
    | nil => rfl
    | cons x xs =>
      rw [hsp] at hw
      simp at hw
  have h3 := (splitWsChars_eq_nil.mp h2).2
  obtain ⟨c, hc, hcw⟩ := rustTrim_has_nonws s h
  rw [h3 c hc] at hcw
  cases hcw

/-- Helper: on a query that does not trim to empty, the engine is the
post-processing of the chosen fetch of `limit+1` rows. -/
theorem search_eq_post (s : Store) (fm lm : String → String → Bool) (q : String)
    (scope : SearchScope) (cursor : Option Cursor) (limit : Nat)
    (hq : rustTrim q ≠ "") :
    search s fm lm q scope cursor (some limit) =
      postProcess (split_whitespace (rustTrim q)) limit
        (fetchRows s fm lm (rustTrim q) (split_whitespace (rustTrim q)) scope cursor
          (limit + 1)) := by
  unfold search
  dsimp only
  rw [if_neg hq, if_neg (by simpa using words_of_trim_ne q hq)]
  rfl

/-- Helper: the master pagination lemma.  If every fetch from the current
cursor returns prefixes of the suffix of the full sorted result list `S`
starting at position `j`, and fetching from the cursor of the i-th element
of `S` returns prefixes of the suffix after position `i`, then walking the
pages from that cursor returns exactly that suffix, each element once, in
order. -/
theorem pagesAux_eq (S : List MessageWithChat) (tokens : List String) (limit : Nat)
    (page : Option Cursor → SearchResult)
    (fetch : Option Cursor → Nat → List MessageWithChat)
    (hpage : ∀ c, page c = postProcess tokens limit (fetch c (limit + 1)))
    (hget : ∀ (i : Nat) (x : MessageWithChat) (n : Nat), S.get? i = some x →
        fetch (some (cursor_of x)) n = (S.drop (i + 1)).take n)
    (hlim : 1 ≤ limit) :
    ∀ (fuel j : Nat) (c : Option Cursor), (∀ n, fetch c n = (S.drop j).take n) →
      S.length - j ≤ fuel * limit →
      pagesAux page fuel c = (S.drop j).map (toSearchItem tokens) := by
  intro fuel
  induction fuel with
  | zero =>
    intro j c hc hbud
    have hdrop : S.drop j = [] := List.drop_eq_nil_of_le (by omega)
    rw [hdrop]
    rfl
  | succ f ih =>
    intro j c hc hbud
    show (let r := page c
      match r.next_cursor with
      | none => r.items
      | some c2 => r.items ++ pagesAux page f (some c2)) =
      (S.drop j).map (toSearchItem tokens)
    rw [hpage c, hc (limit + 1)]
    by_cases hsmall : S.length - j ≤ limit
    · have hlen : (S.drop j).length ≤ limit := by
        rw [List.length_drop]
        omega
      have htake : (S.drop j).take (limit + 1) = S.drop j :=
        List.take_of_length_le (by omega)
      rw [htake, postProcess_small _ _ _ hlen]
    · have hTlen : limit + 1 ≤ (S.drop j).length := by
        rw [List.length_drop]
        omega
      have hbig : limit < ((S.drop j).take (limit + 1)).length := by
        rw [List.length_take]
        omega
      rw [postProcess_big _ _ _ hbig]
      have htt : ((S.drop j).take (limit + 1)).take limit = (S.drop j).take limit := by
        rw [List.take_take]
        congr 1
        omega
      rw [htt]
      have hidx : j + limit - 1 < S.length := by omega
      have hgl : ((S.drop j).take limit).getLast? =
          some (S.get ⟨j + limit - 1, hidx⟩) := by
        rw [List.getLast?_eq_get?]
        have hlt : (((S.drop j).take limit)).length = limit := by
          rw [List.length_take, List.length_drop]
          omega
        rw [hlt]
        rw [List.get?_take (by omega : limit - 1 < limit)]
        have hdg : (S.drop j).get? (limit - 1) = S.get? (j + (limit - 1)) := by
          rw [List.get?_drop]
        rw [hdg]
        rw [show j + (limit - 1) = j + limit - 1 from by omega]
        exact List.get?_eq_get hidx
      rw [hgl]
      show ((S.drop j).take limit).map (toSearchItem tokens) ++
          pagesAux page f (some (cursor_of (S.get ⟨j + limit - 1, hidx⟩))) =
        (S.drop j).map (toSearchItem tokens)
      have hc' : ∀ n, fetch (some (cursor_of (S.get ⟨j + limit - 1, hidx⟩))) n =
          (S.drop (j + limit)).take n := by
        intro n
        rw [hget (j + limit - 1) (S.get ⟨j + limit - 1, hidx⟩) n (List.get?_eq_get hidx)]
        rw [show j + limit - 1 + 1 = j + limit from by omega]
      have hbud' : S.length - (j + limit) ≤ f * limit := by
        rw [Nat.succ_mul] at hbud
        revert hbud
        generalize f * limit = K
        intro hbud
        omega
      rw [ih (j + limit) (some (cursor_of (S.get ⟨j + limit - 1, hidx⟩))) hc' hbud']
      rw [← List.map_append]
      congr 1
      rw [show S.drop (j + limit) = (S.drop j).drop limit from by rw [List.drop_drop]]
      exact List.take_append_drop limit (S.drop j)

/-- The effective row match of the engine for a fixed query: the FTS oracle
applied to the built trigram query when every term has at least 3 scalar
values, and the AND of the LIKE oracle over the terms otherwise. -/
def effMatch (fm lm : String → String → Bool) (qt : String) (tokens : List String)
    (m : MessageWithChat) : Bool :=
  if tokens.all (fun t => decide (3 ≤ t.length)) then fm (build_fts_query qt) m.text_plain
  else tokens.all (fun t => lm t m.text_plain)

/-- Helper: the effective match on the FTS path. -/
theorem effMatch_fts {fm lm : String → String → Bool} {qt : String}
    {tokens : List String} (hu : tokens.all (fun t => decide (3 ≤ t.length)) = true) :
    effMatch fm lm qt tokens = fun m => fm (build_fts_query qt) m.text_plain := by
  funext m
  unfold effMatch
  rw [if_pos hu]

/-- Helper: the effective match on the LIKE path. -/
theorem effMatch_like {fm lm : String → String → Bool} {qt : String}
    {tokens : List String} (hu : tokens.all (fun t => decide (3 ≤ t.length)) = false) :
    effMatch fm lm qt tokens = fun m => tokens.all (fun t => lm t m.text_plain) := by
  funext m
  unfold effMatch
  rw [if_neg (by simp [hu])]

/-- Helper: the effective scoped match on the FTS path. -/
theorem effMatch_chat_fts {fm lm : String → String → Bool} {qt : String}
    {tokens : List String} {cid : Int}
    (hu : tokens.all (fun t => decide (3 ≤ t.length)) = true) :
    (fun m => effMatch fm lm qt tokens m && m.chat_id == cid) =
      fun m => fm (build_fts_query qt) m.text_plain && m.chat_id == cid := by
  funext m
  unfold effMatch
  rw [if_pos hu]

/-- Helper: the effective scoped match on the LIKE path. -/
theorem effMatch_chat_like {fm lm : String → String → Bool} {qt : String}
    {tokens : List String} {cid : Int}
    (hu : tokens.all (fun t => decide (3 ≤ t.length)) = false) :
    (fun m => effMatch fm lm qt tokens m && m.chat_id == cid) =
      fun m => tokens.all (fun t => lm t m.text_plain) && m.chat_id == cid := by
  funext m
  unfold effMatch
  rw [if_neg (by simp [hu])]

/-- Helper: a cursorless global fetch returns a prefix of the effective
sorted match list. -/
theorem fetchRows_all_none (s : Store) (fm lm : String → String → Bool)
    (qt : String) (tokens : List String) (htok : tokens ≠ []) (n : Nat) :
    fetchRows s fm lm qt tokens .all none n =
      (sortedMatchesG s (effMatch fm lm qt tokens)).take n := by
  unfold fetchRows
  dsimp only
  by_cases hu : tokens.all (fun t => decide (3 ≤ t.length)) = true
  · rw [if_pos hu, effMatch_fts hu]
    exact search_messages_fts_none s fm (build_fts_query qt) n
  · rw [if_neg hu, effMatch_like (Bool.eq_false_iff.mpr hu)]
    exact search_messages_like_none s lm tokens htok n

/-- Helper: a global fetch from the cursor of the i-th effective match
returns a prefix of the effective matches strictly after position i. -/
theorem fetchRows_all_get (s : Store) (fm lm : String → String → Bool)
    (qt : String) (tokens : List String) (htok : tokens ≠ [])
    (hpk : (s.messages.map pkOfRow).Nodup) (i : Nat) (x : MessageWithChat) (n : Nat)
    (hx : (sortedMatchesG s (effMatch fm lm qt tokens)).get? i = some x) :
    fetchRows s fm lm qt tokens .all (some (cursor_of x)) n =
      ((sortedMatchesG s (effMatch fm lm qt tokens)).drop (i + 1)).take n := by
  unfold fetchRows
  dsimp only
  by_cases hu : tokens.all (fun t => decide (3 ≤ t.length)) = true
  · rw [if_pos hu]
    rw [effMatch_fts hu] at hx ⊢
    obtain ⟨hi, hget⟩ := List.get?_eq_some.mp hx
    rw [← hget]
    exact search_messages_fts_get s fm (build_fts_query qt) hpk i hi n
  · rw [if_neg hu]
    rw [effMatch_like (Bool.eq_false_iff.mpr hu)] at hx ⊢
    obtain ⟨hi, hget⟩ := List.get?_eq_some.mp hx
    rw [← hget]
    exact search_messages_like_get s lm tokens htok hpk i hi n

/-- Helper: a cursorless scoped fetch returns a prefix of the scoped
effective sorted match list. -/
theorem fetchRows_chat_none (s : Store) (fm lm : String → String → Bool)
    (qt : String) (tokens : List String) (htok : tokens ≠ []) (cid : Int) (n : Nat) :
    fetchRows s fm lm qt tokens (.chat cid) none n =
      (sortedMatchesS s (fun m => effMatch fm lm qt tokens m && m.chat_id == cid)).take n := by
  unfold fetchRows
  dsimp only
  by_cases hu : tokens.all (fun t => decide (3 ≤ t.length)) = true
  · rw [if_pos hu, effMatch_chat_fts hu]
    exact search_messages_fts_in_chat_none s fm (build_fts_query qt) cid n
  · rw [if_neg hu, effMatch_chat_like (Bool.eq_false_iff.mpr hu)]
    exact search_messages_like_in_chat_none s lm tokens htok cid n

/-- Helper: a scoped fetch from the cursor of the i-th scoped effective
match returns a prefix of the scoped matches strictly after position i. -/
theorem fetchRows_chat_get (s : Store) (fm lm : String → String → Bool)
    (qt : String) (tokens : List String) (htok : tokens ≠ []) (cid : Int)
    (hpk : (s.messages.map pkOfRow).Nodup) (i : Nat) (x : MessageWithChat) (n : Nat)
    (hx : (sortedMatchesS s (fun m =>
      effMatch fm lm qt tokens m && m.chat_id == cid)).get? i = some x) :
    fetchRows s fm lm qt tokens (.chat cid) (some (cursor_of x)) n =
      ((sortedMatchesS s (fun m =>
        effMatch fm lm qt tokens m && m.chat_id == cid)).drop (i + 1)).take n := by
  unfold fetchRows
  dsimp only
  by_cases hu : tokens.all (fun t => decide (3 ≤ t.length)) = true
  · rw [if_pos hu]
    rw [effMatch_chat_fts hu] at hx ⊢
    obtain ⟨hi, hget⟩ := List.get?_eq_some.mp hx
    rw [← hget]
    exact search_messages_fts_in_chat_get s fm (build_fts_query qt) cid hpk i hi n
  · rw [if_neg hu]
    rw [effMatch_chat_like (Bool.eq_false_iff.mpr hu)] at hx ⊢
    obtain ⟨hi, hget⟩ := List.get?_eq_some.mp hx
    rw [← hget]
    exact search_messages_like_in_chat_get s lm tokens htok cid hpk i hi n

/-- Helper: any fetch returns at most the requested number of rows. -/
theorem fetchRows_length_le (s : Store) (fm lm : String → String → Bool)
    (qt : String) (tokens : List String) (scope : SearchScope)
    (c : Option Cursor) (n : Nat) :
    (fetchRows s fm lm qt tokens scope c n).length ≤ n := by
  unfold fetchRows
  dsimp only
  by_cases hu : tokens.all (fun t => decide (3 ≤ t.length)) = true
  · rw [if_pos hu]
    cases scope with
    | all =>
      exact List.length_take_le n _
    | chat cid =>
      exact List.length_take_le n _
  · rw [if_neg hu]
    cases scope with
    | all =>
      dsimp only
      unfold search_messages_like
      by_cases ht : tokens.isEmpty
      · rw [if_pos ht]
        simp
      · rw [if_neg ht]
        exact List.length_take_le n _
    | chat cid =>
      dsimp only
      unfold search_messages_like_in_chat
      by_cases ht : tokens.isEmpty
      · rw [if_pos ht]
        simp
      · rw [if_neg ht]
        exact List.length_take_le n _

/-- Helper: the sorted global match list is no longer than the base table. -/
theorem sortedMatchesG_length_le (s : Store) (p : MessageWithChat → Bool) :
    (sortedMatchesG s p).length ≤ s.messages.length := by
  have h1 : (sortedMatchesG s p).length = ((rowsJoined s).filter p).length :=
    (List.perm_insertionSort gle _).length_eq
  rw [h1]
  calc ((rowsJoined s).filter p).length
      ≤ (rowsJoined s).length := List.length_filter_le _ _
    _ ≤ s.messages.length := List.length_filterMap_le _ _

/-- Helper: the sorted scoped match list is no longer than the base table. -/
theorem sortedMatchesS_length_le (s : Store) (p : MessageWithChat → Bool) :
    (sortedMatchesS s p).length ≤ s.messages.length := by
  have h1 : (sortedMatchesS s p).length = ((rowsJoined s).filter p).length :=
    (List.perm_insertionSort sle _).length_eq
  rw [h1]
  calc ((rowsJoined s).filter p).length
      ≤ (rowsJoined s).length := List.length_filter_le _ _
    _ ≤ s.messages.length := List.length_filterMap_le _ _

/-- C2: for a fixed stored message set (with its primary-key constraint), a
fixed query that does not trim to empty, a positive page limit and enough
page fuel, repeatedly calling search with the cursor returned by the
previous page and concatenating the pages yields exactly the sorted list of
all matching messages from non-excluded dialogs — every such message once,
in the order (timestamp DESC, dialog_id ASC, message_id ASC) for the global
scope and (timestamp DESC, message_id ASC) for a dialog scope. -/
theorem claim_C2 (s : Store) (fm lm : String → String → Bool) (q : String)
    (limit fuel : Nat) (cid : Int)
    (hq : rustTrim q ≠ "")
    (hpk : (s.messages.map pkOfRow).Nodup)
    (hlim : 1 ≤ limit)
    (hfuel : s.messages.length ≤ fuel * limit) :
    collectPages s fm lm q .all limit fuel none =
      (sortedMatchesG s (effMatch fm lm (rustTrim q) (split_whitespace (rustTrim q)))).map
        (toSearchItem (split_whitespace (rustTrim q))) ∧
    collectPages s fm lm q (.chat cid) limit fuel none =
      (sortedMatchesS s (fun m =>
          effMatch fm lm (rustTrim q) (split_whitespace (rustTrim q)) m &&
            m.chat_id == cid)).map
        (toSearchItem (split_whitespace (rustTrim q))) := by
  have htok : split_whitespace (rustTrim q) ≠ [] := words_of_trim_ne q hq
  constructor
  · unfold collectPages
    have hc0 : ∀ n, fetchRows s fm lm (rustTrim q) (split_whitespace (rustTrim q)) .all none n =
        ((sortedMatchesG s (effMatch fm lm (rustTrim q)
          (split_whitespace (rustTrim q)))).drop 0).take n := by
      intro n
      rw [List.drop_zero]
      exact fetchRows_all_none s fm lm _ _ htok n
    have hbud : (sortedMatchesG s (effMatch fm lm (rustTrim q)
        (split_whitespace (rustTrim q)))).length - 0 ≤ fuel * limit := by
      have hl := sortedMatchesG_length_le s (effMatch fm lm (rustTrim q)
        (split_whitespace (rustTrim q)))
      omega
    have happ := pagesAux_eq
      (sortedMatchesG s (effMatch fm lm (rustTrim q) (split_whitespace (rustTrim q))))
      (split_whitespace (rustTrim q)) limit
      (fun c => search s fm lm q .all c (some limit))
      (fun c n => fetchRows s fm lm (rustTrim q) (split_whitespace (rustTrim q)) .all c n)
      (fun c => search_eq_post s fm lm q .all c limit hq)
      (fun i x n hx => fetchRows_all_get s fm lm _ _ htok hpk i x n hx)
      hlim fuel 0 none hc0 hbud
    rw [List.drop_zero] at happ
    exact happ
  · unfold collectPages
    have hc0 : ∀ n, fetchRows s fm lm (rustTrim q) (split_whitespace (rustTrim q))
        (.chat cid) none n =
        ((sortedMatchesS s (fun m => effMatch fm lm (rustTrim q)
          (split_whitespace (rustTrim q)) m && m.chat_id == cid)).drop 0).take n := by
      intro n
      rw [List.drop_zero]
      exact fetchRows_chat_none s fm lm _ _ htok cid n
    have hbud : (sortedMatchesS s (fun m => effMatch fm lm (rustTrim q)
        (split_whitespace (rustTrim q)) m && m.chat_id == cid)).length - 0 ≤
        fuel * limit := by
      have hl := sortedMatchesS_length_le s (fun m => effMatch fm lm (rustTrim q)
        (split_whitespace (rustTrim q)) m && m.chat_id == cid)
      omega
    have happ := pagesAux_eq
      (sortedMatchesS s (fun m => effMatch fm lm (rustTrim q)
        (split_whitespace (rustTrim q)) m && m.chat_id == cid))
      (split_whitespace (rustTrim q)) limit
      (fun c => search s fm lm q (.chat cid) c (some limit))
      (fun c n => fetchRows s fm lm (rustTrim q) (split_whitespace (rustTrim q))
        (.chat cid) c n)
      (fun c => search_eq_post s fm lm q (.chat cid) c limit hq)
      (fun i x n hx => fetchRows_chat_get s fm lm _ _ htok cid hpk i x n hx)
      hlim fuel 0 none hc0 hbud
    rw [List.drop_zero] at happ
    exact happ

/-- Concrete store used to witness the pagination claims: two chats (one
excluded) and three messages. -/
def pagingStore : Store :=
  { chats := [
      { chat_id := 1, title := "Chat 1", chat_type := "supergroup",
        username := none, access_hash := none, is_excluded := false },
      { chat_id := 2, title := "Chat 2", chat_type := "group",
        username := none, access_hash := none, is_excluded := true }],
    messages := [
      { message_id := 1, chat_id := 1, timestamp := 1000, text_plain := "test one",
        text_stripped := "testone", link := none },
      { message_id := 2, chat_id := 1, timestamp := 1001, text_plain := "test two",
        text_stripped := "testtwo", link := none },
      { message_id := 3, chat_id := 2, timestamp := 1002, text_plain := "test three",
        text_stripped := "testthree", link := none }],
    fts := ["test one", "test two", "test three"] }

/-- Witness for C2: the claim applied at a concrete store, query, limit 1
and fuel 3, discharging every hypothesis. -/
theorem claim_C2_witness :
    collectPages pagingStore (fun _ _ => true) (fun _ _ => true) "test" .all 1 3 none =
      (sortedMatchesG pagingStore (effMatch (fun _ _ => true) (fun _ _ => true)
        (rustTrim "test") (split_whitespace (rustTrim "test")))).map
        (toSearchItem (split_whitespace (rustTrim "test"))) ∧
    collectPages pagingStore (fun _ _ => true) (fun _ _ => true) "test" (.chat 1) 1 3 none =
      (sortedMatchesS pagingStore (fun m => effMatch (fun _ _ => true) (fun _ _ => true)
        (rustTrim "test") (split_whitespace (rustTrim "test")) m && m.chat_id == 1)).map
        (toSearchItem (split_whitespace (rustTrim "test"))) :=
  claim_C2 pagingStore (fun _ _ => true) (fun _ _ => true) "test" 1 3 1
    (by decide) (by decide) (by decide) (by decide)

/-- Concrete store for the pagination scenario: five messages with
timestamps 1000..1004, all matching "test", in one chat. -/
def scenarioStore : Store :=
  { chats := [
      { chat_id := 1, title := "Chat 1", chat_type := "supergroup",
        username := none, access_hash := none, is_excluded := false }],
    messages := [
      { message_id := 1, chat_id := 1, timestamp := 1000, text_plain := "test message 0",
        text_stripped := "testmessage0", link := none },
      { message_id := 2, chat_id := 1, timestamp := 1001, text_plain := "test message 1",
        text_stripped := "testmessage1", link := none },
      { message_id := 3, chat_id := 1, timestamp := 1002, text_plain := "test message 2",
        text_stripped := "testmessage2", link := none },
      { message_id := 4, chat_id := 1, timestamp := 1003, text_plain := "test message 3",
        text_stripped := "testmessage3", link := none },
      { message_id := 5, chat_id := 1, timestamp := 1004, text_plain := "test message 4",
        text_stripped := "testmessage4", link := none }],
    fts := ["test message 0", "test message 1", "test message 2",
      "test message 3", "test message 4"] }

/-- C3 counterexample: at limit 0 with one matching message, limit+1 = 1 row
is fetched, yet the engine emits no cursor (the kept page is empty and the
cursor is taken from its last element), so "cursor present iff limit+1 rows
fetched" fails for limit 0. -/
theorem claim_C3_counterexample :
    (fetchRows pagingStore (fun _ _ => true) (fun _ _ => true) (rustTrim "test")
      (split_whitespace (rustTrim "test")) .all none (0 + 1)).length = 0 + 1 ∧
    ¬ (((search pagingStore (fun _ _ => true) (fun _ _ => true) "test" .all none
        (some 0)).next_cursor.isSome = true) ↔
      (fetchRows pagingStore (fun _ _ => true) (fun _ _ => true) (rustTrim "test")
        (split_whitespace (rustTrim "test")) .all none (0 + 1)).length = 0 + 1) := by
  decide

/-- C3 amended: for every query that does not trim to empty, every scope and
cursor, and every limit of at least 1 (default 30 when absent), search
fetches limit+1 candidate rows (never more), returns the first limit of them
as items, and emits a next-page cursor exactly when limit+1 rows were
fetched, the cursor being built from the last kept row; at limit 0 the code
emits no cursor even when limit+1 rows were fetched.  Five matching messages
paged at limit 2 yield pages of sizes 2, 2, 1 with no cursor on the last
page. -/
theorem claim_C3 (s : Store) (fm lm : String → String → Bool) (q : String)
    (scope : SearchScope) (cursor : Option Cursor) (limit : Nat)
    (hq : rustTrim q ≠ "") (hlim : 1 ≤ limit) :
    (search s fm lm q scope cursor none =
      search s fm lm q scope cursor (some DEFAULT_PAGE_SIZE)) ∧
    (fetchRows s fm lm (rustTrim q) (split_whitespace (rustTrim q)) scope cursor
      (limit + 1)).length ≤ limit + 1 ∧
    (search s fm lm q scope cursor (some limit)).items =
      ((fetchRows s fm lm (rustTrim q) (split_whitespace (rustTrim q)) scope cursor
        (limit + 1)).take limit).map (toSearchItem (split_whitespace (rustTrim q))) ∧
    (search s fm lm q scope cursor (some limit)).items.length ≤ limit ∧
    ((search s fm lm q scope cursor (some limit)).next_cursor =
      if (fetchRows s fm lm (rustTrim q) (split_whitespace (rustTrim q)) scope cursor
          (limit + 1)).length = limit + 1 then
        ((fetchRows s fm lm (rustTrim q) (split_whitespace (rustTrim q)) scope cursor
          (limit + 1)).take limit).getLast?.map cursor_of
      else none) ∧
    (let p1 := search scenarioStore (fun _ _ => true) (fun _ _ => true) "test" .all
        none (some 2)
     let p2 := search scenarioStore (fun _ _ => true) (fun _ _ => true) "test" .all
        p1.next_cursor (some 2)
     let p3 := search scenarioStore (fun _ _ => true) (fun _ _ => true) "test" .all
        p2.next_cursor (some 2)
     p1.items.length = 2 ∧ p1.next_cursor.isSome = true ∧
       p2.items.length = 2 ∧ p2.next_cursor.isSome = true ∧
       p3.items.length = 1 ∧ p3.next_cursor = none) := by
  refine ⟨rfl, fetchRows_length_le s fm lm _ _ scope cursor (limit + 1), ?_, ?_, ?_, ?_⟩
  · rw [search_eq_post s fm lm q scope cursor limit hq]
    by_cases hlen : (fetchRows s fm lm (rustTrim q) (split_whitespace (rustTrim q))
        scope cursor (limit + 1)).length ≤ limit
    · rw [postProcess_small _ _ _ hlen]
      rw [List.take_of_length_le hlen]
    · have hbig : limit < (fetchRows s fm lm (rustTrim q)
          (split_whitespace (rustTrim q)) scope cursor (limit + 1)).length := by omega
      rw [postProcess_big _ _ _ hbig]
  · rw [search_eq_post s fm lm q scope cursor limit hq]
    by_cases hlen : (fetchRows s fm lm (rustTrim q) (split_whitespace (rustTrim q))
        scope cursor (limit + 1)).length ≤ limit
    · rw [postProcess_small _ _ _ hlen]
      simpa using hlen
    · have hbig : limit < (fetchRows s fm lm (rustTrim q)
          (split_whitespace (rustTrim q)) scope cursor (limit + 1)).length := by omega
      rw [postProcess_big _ _ _ hbig]
      rw [List.length_map, List.length_take]
      omega
  · rw [search_eq_post s fm lm q scope cursor limit hq]
    by_cases hlen : (fetchRows s fm lm (rustTrim q) (split_whitespace (rustTrim q))
        scope cursor (limit + 1)).length ≤ limit
    · rw [postProcess_small _ _ _ hlen]
      rw [if_neg (by omega)]
    · have hbig : limit < (fetchRows s fm lm (rustTrim q)
          (split_whitespace (rustTrim q)) scope cursor (limit + 1)).length := by omega
      have hle := fetchRows_length_le s fm lm (rustTrim q)
        (split_whitespace (rustTrim q)) scope cursor (limit + 1)
      rw [postProcess_big _ _ _ hbig]
      rw [if_pos (by omega)]
  · decide

/-- Witness for C3: the claim applied at a concrete store, query, scope,
cursor and limit. -/
theorem claim_C3_witness :
    (search pagingStore (fun _ _ => true) (fun _ _ => true) "test" .all none
      (some 1)).items.length ≤ 1 ∧
    (search pagingStore (fun _ _ => true) (fun _ _ => true) "test" .all none
      (some 1)).next_cursor =
      (if (fetchRows pagingStore (fun _ _ => true) (fun _ _ => true) (rustTrim "test")
          (split_whitespace (rustTrim "test")) .all none (1 + 1)).length = 1 + 1 then
        ((fetchRows pagingStore (fun _ _ => true) (fun _ _ => true) (rustTrim "test")
          (split_whitespace (rustTrim "test")) .all none (1 + 1)).take 1).getLast?.map
          cursor_of
      else none) :=
  ⟨(claim_C3 pagingStore (fun _ _ => true) (fun _ _ => true) "test" .all none 1
      (by decide) (by decide)).2.2.2.1,
   (claim_C3 pagingStore (fun _ _ => true) (fun _ _ => true) "test" .all none 1
      (by decide) (by decide)).2.2.2.2.1⟩

/-- C4: search takes the FTS trigram path exactly when the trimmed query is
non-empty and every whitespace-separated term has at least 3 Unicode scalar
values, with the FTS query string built by wrapping each term in double
quotes (inner quotes doubled) joined by single spaces; otherwise it takes
the LIKE fallback with one AND-ed per-term LIKE predicate over text_plain;
a query that trims to empty returns an empty result with no cursor. -/
theorem claim_C4 :
    (∀ (s : Store) (fm lm : String → String → Bool) (q : String) (scope : SearchScope)
        (c : Option Cursor) (lim : Option Nat), rustTrim q = "" →
        search s fm lm q scope c lim = ⟨[], none⟩)
  ∧ (∀ (s : Store) (fm lm : String → String → Bool) (q : String) (scope : SearchScope)
        (c : Option Cursor) (limit : Nat), rustTrim q ≠ "" →
        search s fm lm q scope c (some limit) =
          postProcess (split_whitespace (rustTrim q)) limit
            (fetchRows s fm lm (rustTrim q) (split_whitespace (rustTrim q)) scope c
              (limit + 1)))
  ∧ (∀ (s : Store) (fm lm : String → String → Bool) (qt : String)
        (tokens : List String) (c : Option Cursor) (n : Nat) (cid : Int),
        tokens.all (fun t => decide (3 ≤ t.length)) = true →
        (fetchRows s fm lm qt tokens .all c n =
            search_messages_fts s fm (build_fts_query qt) c n ∧
          fetchRows s fm lm qt tokens (.chat cid) c n =
            search_messages_fts_in_chat s fm (build_fts_query qt) cid c n))
  ∧ (∀ (s : Store) (fm lm : String → String → Bool) (qt : String)
        (tokens : List String) (c : Option Cursor) (n : Nat) (cid : Int),
        tokens.all (fun t => decide (3 ≤ t.length)) = false →
        (fetchRows s fm lm qt tokens .all c n =
            search_messages_like s lm tokens c n ∧
          fetchRows s fm lm qt tokens (.chat cid) c n =
            search_messages_like_in_chat s lm tokens cid c n))
  ∧ (∀ q : String, build_fts_query q = String.intercalate " "
        ((split_whitespace q).map (fun term =>
          "\"" ++ term.replace "\"" "\"\"" ++ "\"")))
  ∧ (∀ (s : Store) (lm : String → String → Bool) (terms : List String)
        (c : Option Cursor) (n : Nat), terms ≠ [] →
        search_messages_like s lm terms c n =
          (List.insertionSort gle ((rowsJoined s).filter (fun m =>
            terms.all (fun t => lm t m.text_plain) &&
            (match c with | none => true | some c2 => cursor_ok_global c2 m)))).take n) := by
  refine ⟨?_, ?_, ?_, ?_, ?_, ?_⟩
  · intro s fm lm q scope c lim hq
    unfold search
    dsimp only
    rw [if_pos hq]
  · intro s fm lm q scope c limit hq
    exact search_eq_post s fm lm q scope c limit hq
  · intro s fm lm qt tokens c n cid hu
    unfold fetchRows
    dsimp only
    constructor
    · rw [if_pos hu]
    · rw [if_pos hu]
  · intro s fm lm qt tokens c n cid hu
    unfold fetchRows
    dsimp only
    constructor
    · rw [if_neg (by simp [hu])]
    · rw [if_neg (by simp [hu])]
  · intro q
    rfl
  · intro s lm terms c n hterms
    unfold search_messages_like
    rw [if_neg (by simpa using hterms)]

/-- Witness for C4: the hypothesis-bearing conjuncts at concrete inputs —
an all-whitespace query, a 4-scalar term (FTS path), and a 2-scalar term
(LIKE path). -/
theorem claim_C4_witness :
    search pagingStore (fun _ _ => true) (fun _ _ => true) " " .all none none =
      ⟨[], none⟩ ∧
    fetchRows pagingStore (fun _ _ => true) (fun _ _ => true) "test" ["test"] .all
      none 5 =
      search_messages_fts pagingStore (fun _ _ => true) (build_fts_query "test")
        none 5 ∧
    fetchRows pagingStore (fun _ _ => true) (fun _ _ => true) "ab" ["ab"] .all
      none 5 =
      search_messages_like pagingStore (fun _ _ => true) ["ab"] none 5 ∧
    search_messages_like pagingStore (fun _ _ => true) ["ab"] none 5 =
      (List.insertionSort gle ((rowsJoined pagingStore).filter (fun m =>
        (["ab"].all (fun t => (fun _ _ => true : String → String → Bool) t
          m.text_plain)) &&
        (match (none : Option Cursor) with
          | none => true | some c2 => cursor_ok_global c2 m)))).take 5 :=
  ⟨claim_C4.1 pagingStore (fun _ _ => true) (fun _ _ => true) " " .all none none
      (by decide),
   (claim_C4.2.2.1 pagingStore (fun _ _ => true) (fun _ _ => true) "test" ["test"]
      none 5 0 (by decide)).1,
   (claim_C4.2.2.2.1 pagingStore (fun _ _ => true) (fun _ _ => true) "ab" ["ab"]
      none 5 0 (by decide)).1,
   claim_C4.2.2.2.2.2 pagingStore (fun _ _ => true) ["ab"] none 5 (by decide)⟩

end TgSearch
